import Mathlib

/-!
# Verification of the HUD Generator App

A shallow embedding, in Lean 4, of the pure helper logic of the HUD
Generator application (files app.py and sf_test.py): string utilities,
money and percentage normalisation, address tokenisation and fuzzy
matching, the flat-file insurance and payment cross-references, the
precheck routine, deal resolution against the record store, the
schema-tolerant query loop, and SOQL string quoting.

Python strings are modelled as Lean String (operated on through their
List Char data); Python floats are modelled as an exact idealisation
(PyFloat): finite values are rationals, plus nan and signed infinity.
Pandas data frames are modelled as lists of typed rows; the Salesforce
query engine is modelled as filtering and stable sorting over an
in-memory list of records (or, for the schema-tolerant loop, as an
abstract function from a query to a result).
-/

set_option maxHeartbeats 1600000
set_option maxRecDepth 4096

/-! ## Basic string helpers -/

/-- The single-quote character, used by the SOQL escaping functions. -/
def quoteChar : Char := Char.ofNat 39

/-- A regex word character (the class matched by a backslash-w): ASCII
alphanumeric or underscore. -/
def isWordChar (c : Char) : Bool := c.isAlphanum || c == '_'

/-- Python str.strip on the underlying character list. -/
def pytrimL (l : List Char) : List Char :=
  ((l.dropWhile Char.isWhitespace).reverse.dropWhile Char.isWhitespace).reverse

/-- Python str.strip. -/
def pytrim (s : String) : String := ⟨pytrimL s.data⟩

/-- Python str.lower (ASCII). -/
def pylower (s : String) : String := ⟨s.data.map Char.toLower⟩

/-- Python str.upper (ASCII). -/
def pyupper (s : String) : String := ⟨s.data.map Char.toUpper⟩

/-- digits_only from app.py: re.sub of non-digits with the empty string. -/
def digits_only (s : String) : String := ⟨s.data.filter Char.isDigit⟩

/-- One pass of Python str.replace with a single-character needle. -/
def replaceAllChar (needle : Char) (repl : List Char) : List Char → List Char
  | [] => []
  | c :: rest => (if c = needle then repl else [c]) ++ replaceAllChar needle repl rest

/-- Python str.replace of a single character with the empty string. -/
def removeAllChar (needle : Char) (s : String) : String :=
  ⟨s.data.filter (fun c => c != needle)⟩

/-- Python substring containment (the in operator on str). -/
def hasSubstr (pat : List Char) : List Char → Bool
  | [] => pat.isEmpty
  | c :: rest => pat.isPrefixOf (c :: rest) || hasSubstr pat rest

/-- Does the string start with the given character (str.startswith)? -/
def startsWithChar (c : Char) (s : String) : Bool :=
  match s.data with
  | [] => false
  | d :: _ => d == c

/-- Does the string end with the given character (str.endswith)? -/
def endsWithChar (c : Char) (s : String) : Bool :=
  match s.data.getLast? with
  | some d => d == c
  | none => false

/-- normalize_text from app.py: empty for None, else str.strip. -/
def normalize_text : Option String → String
  | none => ""
  | some s => pytrim s

/-- pick_first from app.py: the first value that is present and nonblank
after stripping (the stripped value is returned). -/
def pick_first : List (Option String) → String
  | [] => ""
  | none :: rest => pick_first rest
  | some v :: rest => if pytrim v = "" then pick_first rest else pytrim v

/-- soql_quote from app.py and sf_test.py: wrap in single quotes, escaping
every backslash first and then every single quote. -/
def soql_quote (s : String) : String :=
  ⟨quoteChar ::
    (replaceAllChar quoteChar ['\\', quoteChar]
      (replaceAllChar '\\' ['\\', '\\'] s.data) ++ [quoteChar])⟩

/-- Consume the body of a single-quoted SOQL string literal (after the
opening quote): a backslash escapes the next character; an unescaped
single quote exits the literal.  Returns the decoded content and the
remaining input. -/
def soqlLitBody : List Char → Option (List Char × List Char)
  | [] => none
  | c :: rest =>
    if c = '\\' then
      match rest with
      | [] => none
      | c2 :: rest2 =>
        match soqlLitBody rest2 with
        | some p => some (c2 :: p.1, p.2)
        | none => none
    else if c = quoteChar then some ([], rest)
    else
      match soqlLitBody rest with
      | some p => some (c :: p.1, p.2)
      | none => none

/-- Parse a complete single-quoted SOQL string literal, returning its
decoded content and the remaining input. -/
def parseSoqlStringLit (l : List Char) : Option (List Char × List Char) :=
  match l with
  | c :: rest => if c = quoteChar then soqlLitBody rest else none
  | [] => none

/-! ## Python float model

Python floats are idealised: finite values carry an exact rational, and
nan and signed infinity are explicit constructors.  The string parser
below follows the documented grammar of the float builtin (optional
surrounding whitespace, optional sign, then a decimal number with
optional fraction and exponent and with underscores allowed between
digits, or a case-insensitive inf / infinity / nan). -/

inductive PyFloat where
  | finite (q : ℚ)
  | inf (neg : Bool)
  | nan
  deriving DecidableEq

/-- Negation of a Python float. -/
def pyNeg : PyFloat → PyFloat
  | .finite q => .finite (-q)
  | .inf b => .inf (!b)
  | .nan => .nan

/-- Numeric value of a decimal digit character. -/
def charVal (c : Char) : ℕ := c.toNat - 48

/-- Value of a most-significant-first list of decimal digit characters. -/
def natOfDigits (l : List Char) : ℕ :=
  l.foldl (fun a c => 10 * a + charVal c) 0

/-- Continuation of a digit run: digits, with single underscores allowed
between digits.  Returns the digits collected and the remaining input. -/
def digitsRest : List Char → (List Char × List Char)
  | [] => ([], [])
  | c :: rest =>
    if c.isDigit then
      let p := digitsRest rest
      (c :: p.1, p.2)
    else if c = '_' then
      match rest with
      | c2 :: rest2 =>
        if c2.isDigit then
          let p := digitsRest rest2
          (c2 :: p.1, p.2)
        else ([], c :: rest)
      | [] => ([], [c])
    else ([], c :: rest)

/-- A digitpart of the float grammar: a digit, then digits with single
underscores allowed between them. -/
def parseDigitPart : List Char → Option (List Char × List Char)
  | [] => none
  | c :: rest =>
    if c.isDigit then
      let p := digitsRest rest
      some (c :: p.1, p.2)
    else none

/-- The signed digits of an exponent. -/
def parseExpSign (l : List Char) : Option (Int × List Char) :=
  match l with
  | '+' :: rest => (parseDigitPart rest).map (fun p => ((natOfDigits p.1 : Int), p.2))
  | '-' :: rest => (parseDigitPart rest).map (fun p => (-(natOfDigits p.1 : Int), p.2))
  | _ => (parseDigitPart l).map (fun p => ((natOfDigits p.1 : Int), p.2))

/-- An exponent of the float grammar: e or E, an optional sign, digits. -/
def parseExp : List Char → Option (Int × List Char)
  | 'e' :: rest => parseExpSign rest
  | 'E' :: rest => parseExpSign rest
  | _ => none

/-- Exact value of integer digits and fraction digits. -/
def mantVal (ip fp : List Char) : ℚ :=
  (natOfDigits ip : ℚ) + (natOfDigits fp : ℚ) / 10 ^ fp.length

/-- Attach an optional exponent to a parsed mantissa. -/
def finishNumber (ip fp : List Char) (r : List Char) : ℚ × List Char :=
  match parseExp r with
  | some p => (mantVal ip fp * (10 : ℚ) ^ p.1, p.2)
  | none => (mantVal ip fp, r)

/-- After an integer digitpart: an optional dot with an optional
fraction digitpart, then an optional exponent. -/
def parseNumberFrac (ip : List Char) : List Char → ℚ × List Char
  | '.' :: r2 =>
    match parseDigitPart r2 with
    | some p2 => finishNumber ip p2.1 p2.2
    | none => finishNumber ip [] r2
  | r => finishNumber ip [] r

/-- A number of the float grammar: digitpart with optional dot and
fraction, or dot and fraction, then an optional exponent. -/
def parseNumber (l : List Char) : Option (ℚ × List Char) :=
  match parseDigitPart l with
  | some p => some (parseNumberFrac p.1 p.2)
  | none =>
    match l with
    | '.' :: r2 =>
      match parseDigitPart r2 with
      | some p2 => some (finishNumber [] p2.1 p2.2)
      | none => none
    | _ => none

/-- Body of the float parser: after whitespace and sign are removed,
recognise inf / infinity / nan case-insensitively, else parse a number
that must consume the whole input. -/
def pyFloatBody (neg : Bool) (l : List Char) : Option PyFloat :=
  let low := l.map Char.toLower
  if low = "infinity".data ∨ low = "inf".data then some (.inf neg)
  else if low = "nan".data then some .nan
  else
    match parseNumber l with
    | some (q, []) => some (.finite (if neg then -q else q))
    | _ => none

/-- The Python float builtin applied to a string: strip whitespace, take
an optional sign, then parse the body.  Returns none when the builtin
would raise ValueError. -/
def pyFloatOfString (s : String) : Option PyFloat :=
  match pytrimL s.data with
  | [] => pyFloatBody false []
  | c :: r =>
    if c = '-' then pyFloatBody true r
    else if c = '+' then pyFloatBody false r
    else pyFloatBody false (c :: r)

/-- The string parse_money works on after stripping, removing dollar
signs and commas, and unwrapping one layer of parentheses. -/
def money_core (s : String) : String :=
  let u := removeAllChar ',' (removeAllChar '$' (pytrim s))
  if startsWithChar '(' u && endsWithChar ')' u then ⟨(u.data.drop 1).dropLast⟩ else u

/-- Is the cleaned money string parenthesised (accounting negative)? -/
def money_is_neg (s : String) : Bool :=
  let u := removeAllChar ',' (removeAllChar '$' (pytrim s))
  startsWithChar '(' u && endsWithChar ')' u

/-- parse_money from app.py: None and blank map to zero; dollar signs and
commas are removed; a parenthesised amount is negated; a string the float
builtin rejects maps to zero. -/
def parse_money : Option String → PyFloat
  | none => .finite 0
  | some v =>
    if pytrim v = "" then .finite 0
    else
      match pyFloatOfString (money_core v) with
      | some x => if money_is_neg v then pyNeg x else x
      | none => .finite 0

/-- Floor of a rational, computed by floor division of the numerator by
the denominator. -/
def ratFloor (x : ℚ) : ℤ := Int.fdiv x.num x.den

/-- Round a rational to the nearest integer, ties to even (the rounding
used by Python float formatting on exactly representable values). -/
def roundHalfEven (x : ℚ) : ℤ :=
  let n := ratFloor x
  let r := x - n
  if r < 1 / 2 then n else if 1 / 2 < r then n + 1 else if n % 2 = 0 then n else n + 1

/-- The character of a decimal digit. -/
def digitChar (d : ℕ) : Char := Char.ofNat (48 + d)

/-- Little-endian decimal digit characters of a positive natural number,
computed with explicit fuel so that the definition reduces. -/
def natToCharsAux : ℕ → ℕ → List Char
  | 0, _ => []
  | fuel + 1, n => if n = 0 then [] else digitChar (n % 10) :: natToCharsAux fuel (n / 10)

/-- Decimal digit characters of a natural number, most significant first. -/
def natToChars (n : ℕ) : List Char :=
  if n = 0 then ['0'] else (natToCharsAux n n).reverse

/-- Insert thousands separators into a reversed digit list. -/
def commaRev : List Char → List Char
  | a :: b :: c :: d :: rest => a :: b :: c :: ',' :: commaRev (d :: rest)
  | l => l

/-- Insert thousands separators into a digit list (format spec comma). -/
def commaGroup (l : List Char) : List Char := (commaRev l.reverse).reverse

/-- Exactly two decimal digit characters of a number below one hundred. -/
def twoDigits (m : ℕ) : List Char := [digitChar (m / 10), digitChar (m % 10)]

/-- fmt_money from app.py: a dollar sign followed by the comma-grouped
fixed-point rendering of the value with two decimals. -/
def fmt_money (x : PyFloat) : String :=
  match x with
  | .nan => "$nan"
  | .inf b => if b then "$-inf" else "$inf"
  | .finite q =>
    let cents : ℤ := roundHalfEven (q * 100)
    let n := cents.natAbs
    ⟨'$' :: ((if q < 0 then ['-'] else []) ++ commaGroup (natToChars (n / 100))
      ++ '.' :: twoDigits (n % 100))⟩

/-- Python fixed-point formatting with zero decimals, used for the
holdback percentage. -/
def fmtF0 (x : PyFloat) : String :=
  match x with
  | .nan => "nan"
  | .inf b => if b then "-inf" else "inf"
  | .finite q =>
    let n := roundHalfEven q
    if n = 0 ∧ q < 0 then "-0"
    else ⟨(if n < 0 then ['-'] else []) ++ natToChars n.natAbs⟩

/-- Models the holdback-percentage normalisation in the form submit
handler of app.py: strip; when nonempty and not already ending in a
percent sign, parse as a float (after removing percent signs and
stripping) and reformat with no decimals and a trailing percent sign;
when the float builtin rejects the text, leave it unchanged. -/
def normalize_pct (s : String) : String :=
  let hb := pytrim s
  if hb ≠ "" ∧ endsWithChar '%' hb = false then
    match pyFloatOfString (pytrim (removeAllChar '%' hb)) with
    | some v => fmtF0 v ++ "%"
    | none => hb
  else hb

/-! ## Address normalisation and fuzzy matching -/

/-- Are all the characters decimal digits? -/
def isDigitList (l : List Char) : Bool := l.all Char.isDigit

/-- Does a boundary hold before the first character of the list (no word
character follows), as for the end of a regex word boundary? -/
def tailBoundary : List Char → Bool
  | [] => true
  | c :: _ => !(isWordChar c)

/-- Scanner for strip_zip4: replace every word-bounded occurrence of five
digits, a dash and four digits by the five digits, scanning left to right
over the original text.  The flag records whether the previous character
of the original text is a word character. -/
def stripZip4Go (prevWord : Bool) : List Char → List Char
  | d1 :: d2 :: d3 :: d4 :: d5 :: '-' :: e1 :: e2 :: e3 :: e4 :: rest =>
    if !prevWord && isDigitList [d1, d2, d3, d4, d5] && isDigitList [e1, e2, e3, e4]
        && tailBoundary rest then
      d1 :: d2 :: d3 :: d4 :: d5 :: stripZip4Go true rest
    else
      d1 :: stripZip4Go (isWordChar d1) (d2 :: d3 :: d4 :: d5 :: '-' :: e1 :: e2 :: e3 :: e4 :: rest)
  | c :: rest => c :: stripZip4Go (isWordChar c) rest
  | [] => []

/-- strip_zip4 from app.py: reduce ZIP+4 codes to their five-digit ZIP. -/
def strip_zip4 (s : String) : String :=
  if s = "" then "" else ⟨stripZip4Go false s.data⟩

/-- Scanner for the first word-bounded run of exactly five digits. -/
def zip5Go (prevWord : Bool) : List Char → Option (List Char)
  | d1 :: d2 :: d3 :: d4 :: d5 :: rest =>
    if !prevWord && isDigitList [d1, d2, d3, d4, d5] && tailBoundary rest then
      some [d1, d2, d3, d4, d5]
    else zip5Go (isWordChar d1) (d2 :: d3 :: d4 :: d5 :: rest)
  | _ => none

/-- zip5_from_addr from app.py: the first five-digit group of the address
after ZIP+4 suffixes are stripped, or the empty string. -/
def zip5_from_addr (s : String) : String :=
  match zip5Go false (strip_zip4 s).data with
  | some z => ⟨z⟩
  | none => ""

/-- house_num_from_addr from app.py: the leading digit run of the
stripped address when it is followed by a non-word character or the end,
else the empty string. -/
def house_num_from_addr (s : String) : String :=
  let t := pytrimL s.data
  let d := t.takeWhile Char.isDigit
  if !d.isEmpty && tailBoundary (t.drop d.length) then ⟨d⟩ else ""

/-- DIR_MAP from app.py. -/
def dirPairs : List (String × String) :=
  [("north", "n"), ("n", "n"), ("south", "s"), ("s", "s"),
   ("east", "e"), ("e", "e"), ("west", "w"), ("w", "w"),
   ("northeast", "ne"), ("ne", "ne"), ("northwest", "nw"), ("nw", "nw"),
   ("southeast", "se"), ("se", "se"), ("southwest", "sw"), ("sw", "sw")]

/-- STATE_MAP from app.py. -/
def statePairs : List (String × String) :=
  [("oregon", "or"), ("or", "or"), ("washington", "wa"), ("wa", "wa"),
   ("california", "ca"), ("ca", "ca")]

/-- SUFFIX_MAP from app.py. -/
def suffixPairs : List (String × String) :=
  [("street", "st"), ("st", "st"), ("avenue", "ave"), ("ave", "ave"),
   ("road", "rd"), ("rd", "rd"), ("drive", "dr"), ("dr", "dr"),
   ("lane", "ln"), ("ln", "ln"), ("court", "ct"), ("ct", "ct"),
   ("place", "pl"), ("pl", "pl"), ("terrace", "ter"), ("ter", "ter"),
   ("trail", "trl"), ("trl", "trl"), ("circle", "cir"), ("cir", "cir"),
   ("boulevard", "blvd"), ("blvd", "blvd"), ("parkway", "pkwy"), ("pkwy", "pkwy")]

/-- Collapse one token through the direction, state and street-suffix
abbreviation tables, in that order of precedence. -/
def map_token (t : String) : String :=
  match dirPairs.lookup t with
  | some v => v
  | none =>
    match statePairs.lookup t with
    | some v => v
    | none =>
      match suffixPairs.lookup t with
      | some v => v
      | none => t

/-- Split a character list on whitespace, dropping empty tokens
(Python str.split with no arguments). -/
def splitWsGo (acc : List Char) : List Char → List (List Char)
  | [] => if acc.isEmpty then [] else [acc.reverse]
  | c :: rest =>
    if c.isWhitespace then
      if acc.isEmpty then splitWsGo [] rest else acc.reverse :: splitWsGo [] rest
    else splitWsGo (c :: acc) rest

/-- Is the character kept verbatim by the address sanitiser (digit,
lower-case letter, or whitespace)? -/
def addrKeep (c : Char) : Bool :=
  c.isDigit || (decide (97 ≤ c.toNat) && decide (c.toNat ≤ 122)) || c.isWhitespace

/-- address_tokens from app.py: strip ZIP+4, lower-case, turn commas,
number signs and dashes into spaces, turn every other character outside
digits, lower-case letters and whitespace into a space, split on
whitespace, collapse abbreviations, and collect the set of tokens. -/
def address_tokens (s : String) : Finset String :=
  if s = "" then ∅
  else
    let l1 := (strip_zip4 s).data.map Char.toLower
    let l2 := l1.map (fun c => if c == ',' || c == '#' then ' ' else c)
    let l3 := l2.map (fun c => if c == '-' then ' ' else c)
    let l4 := l3.map (fun c => if addrKeep c then c else ' ')
    ((splitWsGo [] l4).map (fun t => map_token ⟨t⟩)).toFinset

/-- jaccard from app.py: zero when either set is empty, else the ratio of
the intersection and union sizes. -/
def jaccard (a b : Finset String) : ℚ :=
  if a = ∅ ∨ b = ∅ then 0
  else if (a ∪ b).card = 0 then 0
  else ((a ∩ b).card : ℚ) / ((a ∪ b).card : ℚ)

/-! ## Payment (CAF) and insurance (OSC) reference tables -/

/-- A row of the payment reference workbook, after column-name
normalisation: the order identifier, the property address, and the four
installment payment status columns (absent cells are none). -/
structure CafRow where
  order_id : String
  property_address : String
  inst_1_payment_status : Option String
  inst_2_payment_status : Option String
  inst_3_payment_status : Option String
  inst_4_payment_status : Option String
  deriving DecidableEq

/-- The row dictionary modelling Python's empty dict fallback. -/
def emptyCafRow : CafRow := ⟨"", "", none, none, none, none⟩

/-- Result dictionary of the CAF matchers. -/
structure CafResult where
  found : Bool
  error : Option String
  row : Option CafRow
  method : String
  deriving DecidableEq

/-- extract_order_id_deal_prefix from app.py: the text before the first
dash, stripped, reduced to its digits. -/
def extract_order_id_left_digits (s : String) : String :=
  if s = "" then ""
  else digits_only ⟨pytrimL (s.data.takeWhile (fun c => c != '-'))⟩

/-- caf_try_match_by_deal_id from app.py: the first row whose order
identifier's pre-dash digits equal the digits of the deal number. -/
def caf_try_match_by_deal_id (table : List CafRow) (deal : String) : CafResult :=
  if table.isEmpty then ⟨false, some "Payment file did not load.", none, "deal id"⟩
  else
    let dn := digits_only deal
    if dn = "" then ⟨false, some "Missing deal number.", none, "deal id"⟩
    else
      match (table.filter (fun r => extract_order_id_left_digits r.order_id == dn)).head? with
      | some r => ⟨true, none, some r, "deal id"⟩
      | none => ⟨false, some "No payment record found by deal ID.", none, "deal id"⟩

/-- The ZIP5 and house-number candidate pre-filter inside
caf_try_match_by_address: filter on equal ZIP5 when the target has one,
then on equal leading house number when the target has one and
candidates remain. -/
def caf_prefilter (target : String) (table : List CafRow) : List CafRow :=
  let tzip := zip5_from_addr target
  let thouse := house_num_from_addr target
  let c1 :=
    if tzip ≠ "" then table.filter (fun r => zip5_from_addr r.property_address == tzip)
    else table
  if thouse ≠ "" ∧ c1.isEmpty = false then
    c1.filter (fun r => house_num_from_addr r.property_address == thouse)
  else c1

/-- First element of maximal score, Python max semantics (the earliest
element wins ties). -/
def argmaxFirst : List (CafRow × ℚ) → Option (CafRow × ℚ)
  | [] => none
  | p :: rest =>
    match argmaxFirst rest with
    | none => some p
    | some q => if q.2 > p.2 then some q else some p

/-- caf_try_match_by_address from app.py: choose the target address
(system address first, else the insurance address), pre-filter candidates
by ZIP5 and house number — falling back to the whole table when the
pre-filter leaves nothing — then score every candidate by Jaccard token
similarity and accept the best score when it reaches 0.45. -/
def caf_try_match_by_address (table : List CafRow) (sf_addr osc_addr : String) : CafResult :=
  if table.isEmpty then ⟨false, some "Payment file did not load.", none, "address"⟩
  else
    let target :=
      if normalize_text (some sf_addr) ≠ "" then normalize_text (some sf_addr)
      else normalize_text (some osc_addr)
    if target = "" then ⟨false, some "No address available to match.", none, "address"⟩
    else
      let ttoks := address_tokens target
      let c2 := caf_prefilter target table
      let cands := if c2.isEmpty then table else c2
      let scores := cands.map (fun r => (r, jaccard ttoks (address_tokens r.property_address)))
      match argmaxFirst scores with
      | none => ⟨false, some "No address candidates found.", none, "address"⟩
      | some p =>
        if p.2 < 45 / 100 then ⟨false, some "No close address match found.", none, "address"⟩
        else ⟨true, none, some p.1, "address match"⟩

/-- The CAF lookup performed by run_prechecks: the deal-id match first,
and the address match only when it did not find a row. -/
def caf_match_for_prechecks (table : List CafRow) (deal_digits sf_addr osc_addr : String) :
    CafResult :=
  let c := caf_try_match_by_deal_id table deal_digits
  if c.found then c else caf_try_match_by_address table sf_addr osc_addr

/-- The four payment status columns of a row, with their column names. -/
def cafStatusCols (r : CafRow) : List (String × Option String) :=
  [("inst_1_payment_status", r.inst_1_payment_status),
   ("inst_2_payment_status", r.inst_2_payment_status),
   ("inst_3_payment_status", r.inst_3_payment_status),
   ("inst_4_payment_status", r.inst_4_payment_status)]

/-- pick_payment_statuses from app.py: the nonblank normalised statuses
of the four installment columns; when all normalise to blank, fall back
to the raw-truthy payment-status columns. -/
def pick_payment_statuses (r : CafRow) : List (String × String) :=
  let out := (cafStatusCols r).filterMap (fun p =>
    let v := normalize_text p.2
    if v ≠ "" then some (p.1, v) else none)
  if out.isEmpty = false then out
  else (cafStatusCols r).filterMap (fun p =>
    match p.2 with
    | some raw => if raw ≠ "" then some (p.1, normalize_text (some raw)) else none
    | none => none)

/-- The disqualifying payment status substrings. -/
def badStatusWords : List String :=
  ["delinquent", "late", "unpaid", "past due", "default", "foreclosure"]

/-- is_payment_status_ok from app.py: nonblank and containing none of the
disqualifying substrings after stripping and lower-casing. -/
def is_payment_status_ok (v : String) : Bool :=
  let t := pylower (pytrim v)
  if t = "" then false
  else !(badStatusWords.any (fun w => hasSubstr w.data t.data))

/-- A row of the insurance reference workbook after column-name
normalisation. -/
structure OscRow where
  account_number : String
  primary_status : Option String
  property_street : Option String
  property_city : Option String
  property_state : Option String
  property_zip : Option String
  deriving DecidableEq

/-- The row dictionary modelling Python's empty dict fallback. -/
def emptyOscRow : OscRow := ⟨"", none, none, none, none, none⟩

/-- Result dictionary of osc_lookup. -/
structure OscResult where
  found : Bool
  error : Option String
  row : Option OscRow
  deriving DecidableEq

/-- osc_lookup from app.py: exact equality of the stripped account-number
column against the stripped servicer key; the first equal row is
returned and there is no fuzzy fallback. -/
def osc_lookup (table : List OscRow) (servicer_key : String) : OscResult :=
  if table.isEmpty then ⟨false, some "Insurance file did not load.", none⟩
  else
    let key := pytrim servicer_key
    if key = "" then ⟨false, some "Missing servicer ID.", none⟩
    else
      match (table.filter (fun r => pytrim r.account_number == key)).head? with
      | some r => ⟨true, none, some r⟩
      | none => ⟨false, some "No insurance record found for that servicer ID.", none⟩

/-! ## The precheck routine -/

/-- The Opportunity fields consumed by run_prechecks (absent dict keys
and null values are none). -/
structure Opp where
  Deal_Loan_Number__c : Option String
  Name : Option String
  Account_Name__c : Option String
  Servicer_Commitment_Id__c : Option String
  deriving DecidableEq

/-- An Opportunity record with every field absent. -/
def emptyOpp : Opp := ⟨none, none, none, none⟩

/-- The Property fields consumed by run_prechecks. -/
structure PropRec where
  Servicer_Id__c : Option String
  Full_Address__c : Option String
  deriving DecidableEq

/-- The Loan fields consumed by run_prechecks. -/
structure LoanRec where
  Servicer_Loan_Id__c : Option String
  Servicer_Loan_Status__c : Option String
  deriving DecidableEq

/-- One row of the precheck table: check name, observed value, outcome
and human note. -/
structure CheckRow where
  check : String
  value : String
  result : String
  note : String
  deriving DecidableEq

/-- The dictionary returned by run_prechecks. -/
structure PrecheckPayload where
  deal_number : String
  deal_name : String
  account_name : String
  servicer_key : String
  checks : List CheckRow
  overall_ok : Bool
  sf_address : String
  osc_address : String
  caf_address : String
  caf_method : String
  hud_address_disp : String
  deriving DecidableEq

/-- The insurance status phrase that passes the blocking check. -/
def TARGET_INSURANCE_OK : String := "outside policy in-force"

/-- Python space-join of a list of strings. -/
def joinSpace : List String → String
  | [] => ""
  | [s] => s
  | s :: rest => s ++ " " ++ joinSpace rest

/-- The display address assembled from an insurance row: street, city,
state and zip joined by spaces, stripped, upper-cased. -/
def oscJoinedAddress (r : OscRow) : String :=
  pyupper (pytrim (joinSpace
    [normalize_text r.property_street, normalize_text r.property_city,
     normalize_text r.property_state, normalize_text r.property_zip]))

/-- run_prechecks from app.py, over the two in-memory reference tables
and the resolved Opportunity, Property and Loan records: the servicer key
is the first nonblank of Property.Servicer_Id__c,
Opportunity.Servicer_Commitment_Id__c and Loan.Servicer_Loan_Id__c; the
insurance lookup is blocking; the payment lookup (deal id first, then
address) is informational; three check rows are produced. -/
def run_prechecks (oscT : List OscRow) (cafT : List CafRow) (opp : Opp)
    (prop : Option PropRec) (loan : Option LoanRec) (user_deal_input : String) :
    PrecheckPayload :=
  let deal_digits := digits_only user_deal_input
  let deal_label :=
    if normalize_text opp.Deal_Loan_Number__c ≠ "" then normalize_text opp.Deal_Loan_Number__c
    else user_deal_input
  let deal_name := normalize_text opp.Name
  let acct_name := normalize_text opp.Account_Name__c
  let servicer_key := pick_first
    [prop.bind (fun p => p.Servicer_Id__c), opp.Servicer_Commitment_Id__c,
     loan.bind (fun l => l.Servicer_Loan_Id__c)]
  let sf_full_address := normalize_text (prop.bind (fun p => p.Full_Address__c))
  let sf_full_address_disp := if sf_full_address ≠ "" then pyupper sf_full_address else ""
  let osc := osc_lookup oscT servicer_key
  let osc_primary :=
    if osc.found then normalize_text (osc.row.getD emptyOscRow).primary_status else ""
  let osc_ok := osc.found && (pylower (pytrim osc_primary) == TARGET_INSURANCE_OK)
  let osc_addr_disp := if osc.found then oscJoinedAddress (osc.row.getD emptyOscRow) else ""
  let caf := caf_match_for_prechecks cafT deal_digits sf_full_address osc_addr_disp
  let caf_row := caf.row.getD emptyCafRow
  let caf_addr_disp :=
    if caf.found then pyupper (normalize_text (some caf_row.property_address)) else ""
  let caf_statuses := if caf.found then pick_payment_statuses caf_row else []
  let caf_ok :=
    if caf.found ∧ caf_statuses.isEmpty = false then
      caf_statuses.all (fun p => is_payment_status_ok p.2)
    else false
  let c1 : CheckRow :=
    if servicer_key = "" then
      ⟨"Servicer identifier", "(missing)", "Stop",
        "Missing identifier needed to find the insurance record."⟩
    else if osc.found = false then
      ⟨"Insurance status", osc.error.getD "Not found", "Stop",
        "We need an insurance record before creating the HUD."⟩
    else
      ⟨"Insurance status", (if osc_primary ≠ "" then osc_primary else "(blank)"),
        (if osc_ok then "OK" else "Stop"), "Must be outside-policy in-force."⟩
  let c2 : CheckRow :=
    if caf.found then
      ⟨"Payment info (optional)", "Found", (if caf_ok then "OK" else "Review"),
        "Shown for visibility; it does not block HUD creation."⟩
    else
      ⟨"Payment info (optional)", caf.error.getD "Not found", "Review",
        "Not required to create the HUD."⟩
  let hud_address_disp := if osc_addr_disp ≠ "" then osc_addr_disp else sf_full_address_disp
  let c3 : CheckRow :=
    ⟨"HUD address source", (if osc_addr_disp ≠ "" then "Insurance record" else "System address"),
      (if hud_address_disp ≠ "" then "OK" else "Review"),
      "HUD uses insurance address when available."⟩
  ⟨deal_label, deal_name, acct_name, servicer_key, [c1, c2, c3],
    (servicer_key != "") && osc.found && osc_ok,
    sf_full_address_disp, osc_addr_disp, caf_addr_disp, caf.method, hud_address_disp⟩

/-! ## Deal resolution against the record store -/

/-- An Opportunity record of the store as seen by deal resolution: the
deal number field and the close date (dates are modelled as naturals
ordered chronologically). -/
structure OppRecord where
  Deal_Loan_Number__c : Option String
  CloseDate : Nat
  deriving DecidableEq

/-- Does a record satisfy the WHERE clause of
fetch_opportunity_by_deal_number: its deal number field equals the
canonical digits, or contains them (the SOQL LIKE pattern with percent
signs on both sides)? -/
def oppMatchesDeal (dn : String) (r : OppRecord) : Bool :=
  match r.Deal_Loan_Number__c with
  | some v => v == dn || hasSubstr dn.data v.data
  | none => false

/-- Stable insertion into a list sorted by descending close date. -/
def insertByCloseDesc (x : OppRecord) : List OppRecord → List OppRecord
  | [] => [x]
  | y :: rest =>
    if y.CloseDate ≤ x.CloseDate then x :: y :: rest else y :: insertByCloseDesc x rest

/-- Stable sort by descending close date (ORDER BY CloseDate DESC). -/
def sortByCloseDesc : List OppRecord → List OppRecord
  | [] => []
  | x :: rest => insertByCloseDesc x (sortByCloseDesc rest)

/-- fetch_opportunity_by_deal_number from app.py: strip, keep digits,
fail on empty; otherwise one query whose WHERE clause is equality OR
containment on Deal_Loan_Number__c, ordered by CloseDate descending with
LIMIT 10, taking the first row. -/
def fetch_opportunity_by_deal_number (store : List OppRecord) (deal_number : String) :
    Option OppRecord :=
  let dn := digits_only (pytrim deal_number)
  if dn = "" then none
  else ((sortByCloseDesc (store.filter (oppMatchesDeal dn))).take 10).head?

/-- Modelled from the spec: steps 1 and 2 of the Deal Resolver algorithm
as the specification words them — strip non-digits; fail when empty;
query for a Deal whose identifier field equals the canonical key; only
if none is found retry with a contains match on the same field; fail
when still none.  Used to compare the specified exact-first resolution
with the implemented disjunctive query. -/
def spec_resolve_deal (store : List OppRecord) (deal_number : String) : Option OppRecord :=
  let dn := digits_only (pytrim deal_number)
  if dn = "" then none
  else
    match (sortByCloseDesc
        (store.filter (fun r => r.Deal_Loan_Number__c == some dn))).head? with
    | some r => some r
    | none =>
      (sortByCloseDesc (store.filter (fun r =>
        match r.Deal_Loan_Number__c with
        | some v => hasSubstr dn.data v.data
        | none => false))).head?

/-! ## The schema-tolerant query loop -/

/-- Result of one query attempt against the store. -/
inductive QueryRes (Row : Type) where
  | ok (rows : List Row)
  | err (msg : String)
  deriving DecidableEq

/-- Outcome of try_query_drop_missing: success with the surviving field
list and query, or failure carrying the last attempted query and the raw
error (failNoFields when the loop stopped because no droppable field
remained), or fuel exhaustion of the model. -/
inductive QueryOutcome (Row : Type) where
  | ok (rows : List Row) (fields : List String) (soql : String)
  | failNoFields (lastSoql : String) (lastErr : String)
  | failOther (lastSoql : String) (lastErr : String)
  | outOfFuel
  deriving DecidableEq

/-- The fixed parts of the query built by try_query_drop_missing. -/
structure SoqlCtx where
  objName : String
  whereClause : String
  lim : Nat
  deriving DecidableEq

/-- Python comma-space join. -/
def joinCommaSpace : List String → String
  | [] => ""
  | [s] => s
  | s :: rest => s ++ ", " ++ joinCommaSpace rest

/-- The SOQL text assembled on each iteration of the loop. -/
def build_soql (ctx : SoqlCtx) (fields : List String) (orderBy : Option String) : String :=
  let base := "SELECT " ++ joinCommaSpace fields ++ " FROM " ++ ctx.objName
    ++ " WHERE " ++ ctx.whereClause
  let base2 :=
    match orderBy with
    | some ob => base ++ " ORDER BY " ++ ob
    | none => base
  base2 ++ " LIMIT " ++ toString ctx.lim

/-- Leftmost capture of the given literal followed by a nonempty run of
characters other than the stop character; when needStop is set the run
must be followed by the stop character (regex search with one capturing
group). -/
def captureAfter (pre : List Char) (stop : Char) (needStop : Bool) : List Char → Option (List Char)
  | [] => none
  | c :: rest =>
    if pre.isPrefixOf (c :: rest) then
      let after := (c :: rest).drop pre.length
      let cap := after.takeWhile (fun d => d != stop)
      if cap.isEmpty = false && (!needStop || decide (cap.length < after.length)) then some cap
      else captureAfter pre stop needStop rest
    else captureAfter pre stop needStop rest

/-- The missing-field extraction of try_query_drop_missing: the first of
the three error-message regexes that matches, with the capture stripped. -/
def parse_bad_field (msg : String) : Option String :=
  match captureAfter ("No such column ".data ++ [quoteChar]) quoteChar true msg.data with
  | some cap => some (pytrim ⟨cap⟩)
  | none =>
    match captureAfter "Invalid field: ".data ',' false msg.data with
    | some cap => some (pytrim ⟨cap⟩)
    | none =>
      match captureAfter "INVALID_FIELD: ".data ':' true msg.data with
      | some cap => some (pytrim ⟨cap⟩)
      | none => none

/-- Count of one for a present order-by clause, the part of the loop
measure it contributes. -/
def obCount : Option String → Nat
  | some _ => 1
  | none => 0

/-- The while loop of try_query_drop_missing, fuelled: build the query,
run it; on error first drop the order-by clause when the message points
at it, else extract the reported missing field and, when it is in the
field list, drop it and retry — stopping with failNoFields when no field
remains — and otherwise stop with failOther.  Every failure carries the
last attempted query and the raw error message. -/
def tqd_loop {Row : Type} (exec : List String → Option String → QueryRes Row)
    (ctx : SoqlCtx) : List String → Option String → Nat → QueryOutcome Row
  | _, _, 0 => .outOfFuel
  | fields, orderBy, fuel + 1 =>
    let soql := build_soql ctx fields orderBy
    match exec fields orderBy with
    | .ok rows => .ok rows fields soql
    | .err msg =>
      if orderBy.isSome && (hasSubstr "unexpected token".data (pylower msg).data
          || hasSubstr "nulls".data (pylower msg).data) then
        tqd_loop exec ctx fields none fuel
      else
        match parse_bad_field msg with
        | some bad =>
          if bad ≠ "" ∧ bad ∈ fields then
            let fields2 := fields.erase bad
            if fields2.isEmpty then .failNoFields soql msg
            else tqd_loop exec ctx fields2 orderBy fuel
          else .failOther soql msg
        | none => .failOther soql msg

/-- Drop empty entries and duplicates, keeping first occurrences
(Python list of dict.fromkeys). -/
def dedupFirst : List String → List String
  | [] => []
  | x :: rest => x :: dedupFirst (rest.filter (fun y => y != x))
termination_by l => l.length
decreasing_by
  simp only [List.length_cons]
  exact Nat.lt_succ_of_le (List.length_filter_le _ _)

/-- The first whitespace-separated token of a string. -/
def firstWsToken (s : String) : String :=
  match splitWsGo [] s.data with
  | [] => ""
  | t :: _ => ⟨t⟩

/-- try_query_drop_missing from app.py: dedupe and drop blank fields,
keep only fields the cached schema knows (when the schema is known),
drop the order-by clause when its field is not in the schema, then run
the fuelled retry loop. -/
def try_query_drop_missing {Row : Type} (exec : List String → Option String → QueryRes Row)
    (existing : List String) (ctx : SoqlCtx) (fields0 : List String)
    (orderBy0 : Option String) (fuel : Nat) : QueryOutcome Row :=
  let fields1 := dedupFirst (fields0.filter (fun f => f != ""))
  let fields2 := if existing.isEmpty then fields1 else fields1.filter (fun f => existing.contains f)
  let ob :=
    match orderBy0 with
    | none => none
    | some o =>
      if o = "" then none
      else if existing.isEmpty = false ∧ existing.contains (pytrim (firstWsToken o)) = false
      then none
      else some o
  tqd_loop exec ctx fields2 ob fuel

/-! ## Concrete instances used by witnesses and counterexamples -/

/-- A store record whose deal number equals 123 exactly, closed earlier. -/
def oppExact : OppRecord := ⟨some "123", 10⟩

/-- A store record whose deal number merely contains 123, closed later. -/
def oppContains : OppRecord := ⟨some "1234", 20⟩

/-- A two-record store holding both an exact and a contains match. -/
def demoStore : List OppRecord := [oppExact, oppContains]

/-- A query execution that always fails with an unrecognised error. -/
def execAlwaysBoom : List String → Option String → QueryRes Unit :=
  fun _ _ => .err "boom"

/-- A fixed query context for the loop demonstrations. -/
def demoCtx : SoqlCtx := ⟨"Opportunity", "Id = null", 5⟩

/-- A single-row payment table whose address abbreviates the same way as
North Main St. -/
def cafRowMain : CafRow := ⟨"55555-1", "N Main Street 90210", none, none, none, none⟩

/-- A single-row payment table with an unrelated address. -/
def cafRowOak : CafRow := ⟨"", "987 Oak Ave Portland", none, none, none, none⟩

/-- A payment row agreeing with the Portland target in street, city and
state but in neither ZIP5 nor house number. -/
def cafRowPortland : CafRow := ⟨"", "456 Main St Portland OR 97202", none, none, none, none⟩

/-- The characters of a formatted money value after the dollar sign:
optional minus, comma-grouped integer digits, a dot, two cent digits. -/
def moneyChars (z : ℤ) : List Char :=
  (if z < 0 then ['-'] else []) ++ commaGroup (natToChars (z.natAbs / 100))
    ++ '.' :: twoDigits (z.natAbs % 100)

/-- The escaping inside soql_quote, abbreviated for the lemmas below. -/
def soqlEsc (l : List Char) : List Char :=
  replaceAllChar quoteChar ['\\', quoteChar] (replaceAllChar '\\' ['\\', '\\'] l)

/-- Membership in the ten decimal digit characters. -/
abbrev isTenDigit (c : Char) : Prop :=
  c ∈ (['0', '1', '2', '3', '4', '5', '6', '7', '8', '9'] : List Char)

/-- The cleaned field list try_query_drop_missing hands to its loop. -/
def tqdFields (existing fields0 : List String) : List String :=
  let f1 := dedupFirst (fields0.filter (fun f => f != ""))
  if existing.isEmpty then f1 else f1.filter (fun f => existing.contains f)

/-- The order-by clause try_query_drop_missing hands to its loop. -/
def tqdOb (existing : List String) : Option String → Option String
  | none => none
  | some o =>
    if o = "" then none
    else if existing.isEmpty = false ∧ existing.contains (pytrim (firstWsToken o)) = false
    then none
    else some o

/-! ## Theorems

Helper lemmas first, then one theorem per claim (with witnesses and
counterexamples where required). -/

theorem soql_quote_data (s : String) :
    (soql_quote s).data = quoteChar :: (soqlEsc s.data ++ [quoteChar]) := rfl

theorem soqlEsc_nil : soqlEsc [] = [] := rfl

theorem soqlEsc_cons (c : Char) (l : List Char) :
    soqlEsc (c :: l) =
      (if c = '\\' then ['\\', '\\'] else if c = quoteChar then ['\\', quoteChar] else [c])
        ++ soqlEsc l := by
  by_cases h1 : c = '\\'
  · subst h1
    simp [soqlEsc, replaceAllChar, quoteChar]
  · by_cases h2 : c = quoteChar
    · subst h2
      simp [soqlEsc, replaceAllChar, quoteChar]
    · simp [soqlEsc, replaceAllChar, h1, h2]

theorem soqlLitBody_quote (tail : List Char) :
    soqlLitBody (quoteChar :: tail) = some ([], tail) := by
  rw [soqlLitBody.eq_def]
  norm_num [show quoteChar ≠ '\\' from by decide]

theorem soqlLitBody_esc (l tail : List Char) :
    soqlLitBody (soqlEsc l ++ quoteChar :: tail) = some (l, tail) := by
  induction l with
  | nil =>
    rw [soqlEsc_nil, List.nil_append, soqlLitBody_quote]
  | cons c rest ih =>
    rw [soqlEsc_cons]
    by_cases h1 : c = '\\'
    · subst h1
      rw [if_pos rfl]
      simp only [List.cons_append, List.nil_append]
      rw [soqlLitBody.eq_def]
      simp [ih]
    · by_cases h2 : c = quoteChar
      · subst h2
        rw [if_neg h1, if_pos rfl]
        simp only [List.cons_append, List.nil_append]
        rw [soqlLitBody.eq_def]
        simp [ih]
      · rw [if_neg h1, if_neg h2]
        simp only [List.cons_append, List.nil_append]
        rw [soqlLitBody.eq_def]
        simp [h1, h2, ih]

/-- C10: soql_quote wraps its argument in single quotes with every
backslash and single quote escaped, so that a SOQL lexer consuming the
result as one quoted string literal recovers exactly the original text
and reaches the end of the output — interpolated user text can never
terminate the literal early. -/
theorem c10_soql_quote_safe (s : String) :
    parseSoqlStringLit (soql_quote s).data = some (s.data, []) := by
  rw [soql_quote_data]
  show parseSoqlStringLit (quoteChar :: (soqlEsc s.data ++ [quoteChar])) = _
  simp only [parseSoqlStringLit, if_pos rfl]
  have h := soqlLitBody_esc s.data []
  simpa using h

/-! ### Digit and character lemmas -/

theorem tenDigit_facts (c : Char) (h : isTenDigit c) :
    c.isDigit = true ∧ c.isWhitespace = false ∧ c ≠ '-' ∧ c ≠ '+' ∧ c ≠ '.' ∧ c ≠ '_'
      ∧ (c != '$') = true ∧ (c != ',') = true ∧ c ≠ '(' ∧ c.toLower = c
      ∧ c.toLower ≠ 'i' ∧ c.toLower ≠ 'n' := by
  simp only [isTenDigit, List.mem_cons, List.not_mem_nil, or_false] at h
  rcases h with rfl | rfl | rfl | rfl | rfl | rfl | rfl | rfl | rfl | rfl <;>
    refine ⟨by decide, by decide, by decide, by decide, by decide, by decide,
      by decide, by decide, by decide, by decide, by decide, by decide⟩

theorem digitChar_tenDigit {d : ℕ} (h : d < 10) : isTenDigit (digitChar d) := by
  interval_cases d <;> decide

theorem charVal_digitChar {d : ℕ} (h : d < 10) : charVal (digitChar d) = d := by
  interval_cases d <;> decide

/-- Every character produced by natToCharsAux is a decimal digit. -/
theorem natToCharsAux_tenDigit (fuel n : ℕ) :
    ∀ c ∈ natToCharsAux fuel n, isTenDigit c := by
  induction fuel generalizing n with
  | zero => intro c hc; simp [natToCharsAux] at hc
  | succ f ih =>
    intro c hc
    by_cases hn : n = 0
    · simp [natToCharsAux, hn] at hc
    · simp only [natToCharsAux, if_neg hn, List.mem_cons] at hc
      rcases hc with rfl | hc
      · exact digitChar_tenDigit (Nat.mod_lt _ (by norm_num))
      · exact ih _ c hc

theorem natToChars_tenDigit (n : ℕ) : ∀ c ∈ natToChars n, isTenDigit c := by
  intro c hc
  by_cases hn : n = 0
  · simp [natToChars, hn] at hc
    subst hc; decide
  · simp only [natToChars, if_neg hn, List.mem_reverse] at hc
    exact natToCharsAux_tenDigit n n c hc

theorem natToChars_ne_nil (n : ℕ) : natToChars n ≠ [] := by
  by_cases hn : n = 0
  · simp [natToChars, hn]
  · simp only [natToChars, if_neg hn, ne_eq, List.reverse_eq_nil_iff]
    cases n with
    | zero => exact absurd rfl hn
    | succ m =>
      rw [natToCharsAux, if_neg hn]
      simp

theorem twoDigits_tenDigit {m : ℕ} (h : m < 100) : ∀ c ∈ twoDigits m, isTenDigit c := by
  intro c hc
  simp only [twoDigits, List.mem_cons, List.not_mem_nil, or_false] at hc
  rcases hc with rfl | rfl
  · exact digitChar_tenDigit (by omega)
  · exact digitChar_tenDigit (Nat.mod_lt _ (by norm_num))

/-! ### natOfDigits and natToChars -/

theorem natOfDigits_append (l : List Char) (c : Char) :
    natOfDigits (l ++ [c]) = 10 * natOfDigits l + charVal c := by
  simp [natOfDigits, List.foldl_append]

theorem natToCharsAux_eq (fuel n : ℕ) (h : n ≤ fuel) :
    natToCharsAux fuel n = (Nat.digits 10 n).map digitChar := by
  induction fuel generalizing n with
  | zero =>
    interval_cases n
    simp [natToCharsAux]
  | succ f ih =>
    by_cases hn : n = 0
    · simp [natToCharsAux, hn]
    · rw [natToCharsAux, if_neg hn,
        Nat.digits_def' (by norm_num : 1 < 10) (Nat.pos_of_ne_zero hn), List.map_cons,
        ih (n / 10) (by
          have := Nat.div_lt_self (Nat.pos_of_ne_zero hn) (by norm_num : 1 < 10)
          omega)]

theorem natOfDigits_rev_map (ds : List ℕ) (h : ∀ d ∈ ds, d < 10) :
    natOfDigits ((ds.map digitChar).reverse) = Nat.ofDigits 10 ds := by
  induction ds with
  | nil => simp [natOfDigits, Nat.ofDigits]
  | cons d rest ih =>
    rw [List.map_cons, List.reverse_cons, natOfDigits_append,
      ih (fun x hx => h x (List.mem_cons_of_mem _ hx)),
      charVal_digitChar (h d (List.mem_cons_self _ _)), Nat.ofDigits_cons]
    ring

theorem natOfDigits_natToChars (n : ℕ) : natOfDigits (natToChars n) = n := by
  by_cases hn : n = 0
  · subst hn; decide
  · rw [natToChars, if_neg hn, natToCharsAux_eq n n le_rfl, natOfDigits_rev_map]
    · exact Nat.ofDigits_digits 10 n
    · intro d hd
      exact Nat.digits_lt_base (by norm_num) hd

theorem natOfDigits_twoDigits {m : ℕ} (h : m < 100) : natOfDigits (twoDigits m) = m := by
  have h1 : charVal (digitChar (m / 10)) = m / 10 := charVal_digitChar (by omega)
  have h2 : charVal (digitChar (m % 10)) = m % 10 :=
    charVal_digitChar (Nat.mod_lt _ (by norm_num))
  simp [twoDigits, natOfDigits, h1, h2]
  omega

/-! ### Parser evaluation lemmas -/

theorem dropWhile_eq_self_of_all {p : Char → Bool} {l : List Char}
    (h : ∀ c ∈ l, p c = false) : l.dropWhile p = l := by
  cases l with
  | nil => rfl
  | cons c rest =>
    rw [List.dropWhile_cons, if_neg]
    simp [h c (List.mem_cons_self _ _)]

theorem pytrimL_eq_self {l : List Char} (h : ∀ c ∈ l, c.isWhitespace = false) :
    pytrimL l = l := by
  rw [pytrimL, dropWhile_eq_self_of_all h, dropWhile_eq_self_of_all, List.reverse_reverse]
  intro c hc
  exact h c (List.mem_reverse.mp hc)

theorem digitsRest_append {ds rest : List Char} (hds : ∀ c ∈ ds, c.isDigit = true)
    (hrest : rest = [] ∨ ∃ c r, rest = c :: r ∧ c.isDigit = false ∧ c ≠ '_') :
    digitsRest (ds ++ rest) = (ds, rest) := by
  induction ds with
  | nil =>
    rcases hrest with rfl | ⟨c, r, rfl, hcd, hcu⟩
    · rfl
    · rw [List.nil_append, digitsRest.eq_def]
      simp [hcd, hcu]
  | cons d tail ih =>
    rw [List.cons_append, digitsRest.eq_def]
    have := ih (fun c hc => hds c (List.mem_cons_of_mem _ hc))
    simp [hds d (List.mem_cons_self _ _), this]

theorem parseDigitPart_eval {ds rest : List Char} (hne : ds ≠ [])
    (hds : ∀ c ∈ ds, c.isDigit = true)
    (hrest : rest = [] ∨ ∃ c r, rest = c :: r ∧ c.isDigit = false ∧ c ≠ '_') :
    parseDigitPart (ds ++ rest) = some (ds, rest) := by
  cases ds with
  | nil => exact absurd rfl hne
  | cons d tail =>
    rw [List.cons_append, parseDigitPart, if_pos (hds d (List.mem_cons_self _ _))]
    have := digitsRest_append (fun c hc => hds c (List.mem_cons_of_mem _ hc)) hrest
    simp [this]

theorem parseNumber_dot {ip fp : List Char} (hipne : ip ≠ []) (hfpne : fp ≠ [])
    (hip : ∀ c ∈ ip, c.isDigit = true) (hfp : ∀ c ∈ fp, c.isDigit = true) :
    parseNumber (ip ++ '.' :: fp) = some (mantVal ip fp, []) := by
  have h1 : parseDigitPart (ip ++ '.' :: fp) = some (ip, '.' :: fp) :=
    parseDigitPart_eval hipne hip (Or.inr ⟨'.', fp, rfl, by decide, by decide⟩)
  have h2 : parseDigitPart (fp ++ ([] : List Char)) = some (fp, []) :=
    parseDigitPart_eval hfpne hfp (Or.inl rfl)
  rw [List.append_nil] at h2
  simp only [parseNumber, h1, parseNumberFrac, h2, finishNumber, parseExp]

theorem parseNumber_int {ds : List Char} (hne : ds ≠ [])
    (hds : ∀ c ∈ ds, c.isDigit = true) :
    parseNumber ds = some (mantVal ds [], []) := by
  have h1 : parseDigitPart (ds ++ ([] : List Char)) = some (ds, []) :=
    parseDigitPart_eval hne hds (Or.inl rfl)
  rw [List.append_nil] at h1
  simp only [parseNumber, h1, parseNumberFrac, finishNumber, parseExp]

theorem pyFloatBody_number {neg : Bool} {c : Char} {l : List Char} {q : ℚ}
    (hc : isTenDigit c) (hq : parseNumber (c :: l) = some (q, [])) :
    pyFloatBody neg (c :: l) = some (.finite (if neg then -q else q)) := by
  obtain ⟨-, -, -, -, -, -, -, -, -, hlow, hi, hn⟩ := tenDigit_facts c hc
  have hci : c ≠ 'i' := fun h => hi (hlow.trans h)
  have hcn : c ≠ 'n' := fun h => hn (hlow.trans h)
  have d1 : ("infinity".data) = ['i', 'n', 'f', 'i', 'n', 'i', 't', 'y'] := by decide
  have d2 : ("inf".data) = ['i', 'n', 'f'] := by decide
  have d3 : ("nan".data) = ['n', 'a', 'n'] := by decide
  have hne1 : ((c :: l).map Char.toLower) ≠ "infinity".data := by
    rw [d1, List.map_cons]
    intro h
    exact hci (hlow.symm.trans (List.cons.injEq _ _ _ _ ▸ h).1)
  have hne2 : ((c :: l).map Char.toLower) ≠ "inf".data := by
    rw [d2, List.map_cons]
    intro h
    exact hci (hlow.symm.trans (List.cons.injEq _ _ _ _ ▸ h).1)
  have hne3 : ((c :: l).map Char.toLower) ≠ "nan".data := by
    rw [d3, List.map_cons]
    intro h
    exact hcn (hlow.symm.trans (List.cons.injEq _ _ _ _ ▸ h).1)
  rw [d1] at hne1
  rw [d2] at hne2
  rw [d3] at hne3
  rw [pyFloatBody]
  simp only [hq, d1, d2, d3]
  have hdisj : ¬(List.map Char.toLower (c :: l) = ['i', 'n', 'f', 'i', 'n', 'i', 't', 'y']
      ∨ List.map Char.toLower (c :: l) = ['i', 'n', 'f']) := by
    rintro (h | h)
    · exact hne1 h
    · exact hne2 h
  rw [if_neg hdisj, if_neg hne3]

theorem pyFloatOfString_eval_pos {c : Char} {l : List Char} {q : ℚ}
    (htrim : pytrimL (c :: l) = c :: l) (hc : isTenDigit c)
    (hq : parseNumber (c :: l) = some (q, [])) :
    pyFloatOfString ⟨c :: l⟩ = some (.finite q) := by
  obtain ⟨-, -, hm, hp, -⟩ := tenDigit_facts c hc
  show (match pytrimL (c :: l) with
    | [] => pyFloatBody false []
    | c :: r =>
      if c = '-' then pyFloatBody true r
      else if c = '+' then pyFloatBody false r
      else pyFloatBody false (c :: r)) = some (.finite q)
  rw [htrim]
  simp only [if_neg hm, if_neg hp]
  rw [pyFloatBody_number hc hq]
  simp

theorem pyFloatOfString_eval_neg {c : Char} {l : List Char} {q : ℚ}
    (htrim : pytrimL ('-' :: c :: l) = '-' :: c :: l) (hc : isTenDigit c)
    (hq : parseNumber (c :: l) = some (q, [])) :
    pyFloatOfString ⟨'-' :: c :: l⟩ = some (.finite (-q)) := by
  show (match pytrimL ('-' :: c :: l) with
    | [] => pyFloatBody false []
    | c :: r =>
      if c = '-' then pyFloatBody true r
      else if c = '+' then pyFloatBody false r
      else pyFloatBody false (c :: r)) = some (.finite (-q))
  rw [htrim]
  simp only [if_pos rfl]
  rw [pyFloatBody_number hc hq]
  simp

/-! ### Rounding and formatting lemmas -/

theorem ratFloor_intCast (z : ℤ) : ratFloor (z : ℚ) = z := by
  rw [ratFloor, Rat.num_intCast, Rat.den_intCast]
  exact Int.fdiv_one z

theorem roundHalfEven_intCast (z : ℤ) : roundHalfEven (z : ℚ) = z := by
  rw [roundHalfEven]
  simp only [ratFloor_intCast, sub_self]
  norm_num

theorem div_hundred_mul (z : ℤ) : ((z : ℚ) / 100) * 100 = (z : ℚ) := by
  field_simp

theorem commaRev_filter (l : List Char) :
    (commaRev l).filter (fun c => c != ',') = l.filter (fun c => c != ',') := by
  match l with
  | [] => rfl
  | [a] => rfl
  | [a, b] => rfl
  | [a, b, c] => rfl
  | a :: b :: c :: d :: rest =>
    rw [commaRev]
    simp only [List.filter_cons, commaRev_filter (d :: rest)]
    norm_num

theorem mem_commaRev {c : Char} {l : List Char} (h : c ∈ commaRev l) : c ∈ l ∨ c = ',' := by
  match l with
  | [] => exact Or.inl h
  | [a] => exact Or.inl h
  | [a, b] => exact Or.inl h
  | [a, b, c'] => exact Or.inl h
  | a :: b :: c' :: d :: rest =>
    rw [commaRev] at h
    simp only [List.mem_cons] at h
    rcases h with rfl | rfl | rfl | rfl | h
    · exact Or.inl (by simp)
    · exact Or.inl (by simp)
    · exact Or.inl (by simp)
    · exact Or.inr rfl
    · rcases mem_commaRev h with h2 | h2
      · exact Or.inl (by simp at h2 ⊢; tauto)
      · exact Or.inr h2

theorem mem_commaGroup {c : Char} {l : List Char} (h : c ∈ commaGroup l) : c ∈ l ∨ c = ',' := by
  rw [commaGroup, List.mem_reverse] at h
  rcases mem_commaRev h with h2 | h2
  · exact Or.inl (List.mem_reverse.mp h2)
  · exact Or.inr h2

theorem filter_reverse_comm (p : Char → Bool) (l : List Char) :
    l.reverse.filter p = (l.filter p).reverse := by
  induction l with
  | nil => rfl
  | cons c rest ih =>
    rw [List.reverse_cons, List.filter_append, List.filter_cons, ih]
    by_cases hp : p c = true
    · simp [hp, List.filter_cons]
    · simp only [Bool.not_eq_true] at hp
      simp [hp, List.filter_cons]

theorem commaGroup_filter (l : List Char) (h : ∀ c ∈ l, c ≠ ',') :
    (commaGroup l).filter (fun c => c != ',') = l := by
  rw [commaGroup, filter_reverse_comm, commaRev_filter, ← filter_reverse_comm,
    List.reverse_reverse]
  rw [List.filter_eq_self]
  intro a ha
  simp [h a ha]

theorem div100_neg_iff (z : ℤ) : ((z : ℚ) / 100 < 0) ↔ z < 0 := by
  rw [div_neg_iff]
  norm_num

theorem fmt_money_cents (z : ℤ) :
    fmt_money (.finite ((z : ℚ) / 100)) = ⟨'$' :: moneyChars z⟩ := by
  rw [fmt_money, moneyChars]
  simp only [div_hundred_mul, roundHalfEven_intCast, div100_neg_iff]

theorem moneyChars_facts (z : ℤ) :
    ∀ c ∈ moneyChars z, c.isWhitespace = false ∧ (c != '$') = true ∧ (c != ',') = true
      ∨ c = ',' := by
  intro c hc
  rw [moneyChars] at hc
  simp only [List.mem_append, List.mem_cons] at hc
  rcases hc with (hs | hg) | hdot | htwo
  · left
    have : c = '-' := by
      by_cases hz : z < 0 <;> simp [hz] at hs
      · exact hs
    subst this; exact ⟨by decide, by decide, by decide⟩
  · rcases mem_commaGroup hg with hd | rfl
    · obtain ⟨-, hws, -, -, -, -, hds, hcs, -, -⟩ :=
        tenDigit_facts c (natToChars_tenDigit _ c hd)
      exact Or.inl ⟨hws, hds, hcs⟩
    · exact Or.inr rfl
  · subst hdot; exact Or.inl ⟨by decide, by decide, by decide⟩
  · obtain ⟨-, hws, -, -, -, -, hds, hcs, -, -⟩ :=
      tenDigit_facts c (twoDigits_tenDigit (Nat.mod_lt _ (by norm_num)) c htwo)
    exact Or.inl ⟨hws, hds, hcs⟩

theorem mantVal_cents (n : ℕ) :
    mantVal (natToChars (n / 100)) (twoDigits (n % 100)) = (n : ℚ) / 100 := by
  rw [mantVal, natOfDigits_natToChars, natOfDigits_twoDigits (Nat.mod_lt _ (by norm_num))]
  have hlen : (twoDigits (n % 100)).length = 2 := rfl
  rw [hlen]
  have h : (100 : ℚ) * ((n / 100 : ℕ) : ℚ) + ((n % 100 : ℕ) : ℚ) = (n : ℚ) := by
    exact_mod_cast congrArg (Nat.cast (R := ℚ)) (Nat.div_add_mod n 100)
  field_simp
  linarith

/-- The string parse_money receives back from a formatted cent amount,
after the dollar signs and commas are removed. -/
theorem money_core_fmt (z : ℤ) :
    money_core ⟨'$' :: moneyChars z⟩ =
      ⟨(if z < 0 then ['-'] else []) ++ natToChars (z.natAbs / 100)
        ++ '.' :: twoDigits (z.natAbs % 100)⟩
    ∧ money_is_neg ⟨'$' :: moneyChars z⟩ = false := by
  have hws : ∀ c ∈ '$' :: moneyChars z, c.isWhitespace = false := by
    intro c hc
    rcases List.mem_cons.mp hc with rfl | hc2
    · decide
    · rcases moneyChars_facts z c hc2 with ⟨h1, -, -⟩ | rfl
      · exact h1
      · decide
  have htrim : pytrim ⟨'$' :: moneyChars z⟩ = ⟨'$' :: moneyChars z⟩ := by
    rw [pytrim]
    show String.mk (pytrimL ('$' :: moneyChars z)) = _
    rw [pytrimL_eq_self hws]
  have hl1 : List.filter (fun c => c != '$') ('$' :: moneyChars z) = moneyChars z := by
    rw [List.filter_cons]
    norm_num
    intro c hc
    rcases moneyChars_facts z c hc with ⟨-, h2, -⟩ | rfl
    · simpa using h2
    · decide
  have hl2 : List.filter (fun c => c != ',') (moneyChars z) =
      (if z < 0 then ['-'] else []) ++ natToChars (z.natAbs / 100)
        ++ '.' :: twoDigits (z.natAbs % 100) := by
    rw [moneyChars, List.filter_append, List.filter_append]
    congr 1
    · congr 1
      · rw [List.filter_eq_self]
        intro c hc
        by_cases hz : z < 0 <;> simp [hz] at hc
        subst hc; decide
      · apply commaGroup_filter
        intro c hc
        obtain ⟨-, -, -, -, -, -, -, hcs, -, -⟩ :=
          tenDigit_facts c (natToChars_tenDigit _ c hc)
        simpa using hcs
    · rw [List.filter_cons, if_pos (by decide)]
      congr 1
      rw [List.filter_eq_self]
      intro c hc
      obtain ⟨-, -, -, -, -, -, -, hcs, -, -⟩ :=
        tenDigit_facts c (twoDigits_tenDigit (Nat.mod_lt _ (by norm_num)) c hc)
      exact hcs
  have hu : removeAllChar ',' (removeAllChar '$' (pytrim ⟨'$' :: moneyChars z⟩)) =
      ⟨(if z < 0 then ['-'] else []) ++ natToChars (z.natAbs / 100)
        ++ '.' :: twoDigits (z.natAbs % 100)⟩ := by
    rw [htrim, removeAllChar]
    show removeAllChar ',' (String.mk (List.filter _ ('$' :: moneyChars z))) = _
    rw [hl1, removeAllChar]
    show String.mk (List.filter _ (moneyChars z)) = _
    rw [hl2]
  have hstart : startsWithChar '('
      (removeAllChar ',' (removeAllChar '$' (pytrim ⟨'$' :: moneyChars z⟩))) = false := by
    rw [hu, startsWithChar]
    obtain ⟨c0, cs, hnc⟩ : ∃ c0 cs, natToChars (z.natAbs / 100) = c0 :: cs := by
      cases h : natToChars (z.natAbs / 100) with
      | nil => exact absurd h (natToChars_ne_nil _)
      | cons a b => exact ⟨a, b, rfl⟩
    by_cases hz : z < 0
    · simp [hz]
    · simp only [if_neg hz, List.nil_append, hnc, List.cons_append]
      obtain ⟨-, -, -, -, -, -, -, -, hcp, -⟩ :=
        tenDigit_facts c0 (natToChars_tenDigit _ c0 (hnc ▸ List.mem_cons_self _ _))
      simp [hcp]
  constructor
  · rw [money_core, if_neg]
    · exact hu
    · rw [hstart]
      simp
  · rw [money_is_neg, hstart]
    simp

theorem parse_money_fmt_cents (z : ℤ) :
    parse_money (some (fmt_money (.finite ((z : ℚ) / 100)))) = .finite ((z : ℚ) / 100) := by
  rw [fmt_money_cents]
  obtain ⟨hcore, hneg⟩ := money_core_fmt z
  have hws : ∀ c ∈ '$' :: moneyChars z, c.isWhitespace = false := by
    intro c hc
    rcases List.mem_cons.mp hc with rfl | hc2
    · decide
    · rcases moneyChars_facts z c hc2 with ⟨h1, -, -⟩ | rfl
      · exact h1
      · decide
  have htrim : pytrim ⟨'$' :: moneyChars z⟩ = ⟨'$' :: moneyChars z⟩ := by
    rw [pytrim]
    show String.mk (pytrimL ('$' :: moneyChars z)) = _
    rw [pytrimL_eq_self hws]
  have htne : pytrim ⟨'$' :: moneyChars z⟩ ≠ "" := by
    rw [htrim]
    intro h
    have := congrArg String.data h
    simp at this
  obtain ⟨c0, cs, hnc⟩ : ∃ c0 cs, natToChars (z.natAbs / 100) = c0 :: cs := by
    cases h : natToChars (z.natAbs / 100) with
    | nil => exact absurd h (natToChars_ne_nil _)
    | cons a b => exact ⟨a, b, rfl⟩
  have hc0 : isTenDigit c0 := natToChars_tenDigit _ c0 (hnc ▸ List.mem_cons_self _ _)
  have hbody_ws : ∀ c ∈ natToChars (z.natAbs / 100) ++ '.' :: twoDigits (z.natAbs % 100),
      c.isWhitespace = false := by
    intro c hc
    rcases List.mem_append.mp hc with hd | hd
    · exact (tenDigit_facts c (natToChars_tenDigit _ c hd)).2.1
    · rcases List.mem_cons.mp hd with rfl | hd2
      · decide
      · exact (tenDigit_facts c
          (twoDigits_tenDigit (Nat.mod_lt _ (by norm_num)) c hd2)).2.1
  have hq : parseNumber (natToChars (z.natAbs / 100) ++ '.' :: twoDigits (z.natAbs % 100))
      = some ((z.natAbs : ℚ) / 100, []) := by
    rw [parseNumber_dot (natToChars_ne_nil _) (by simp [twoDigits])
      (fun c hc => (tenDigit_facts c (natToChars_tenDigit _ c hc)).1)
      (fun c hc => (tenDigit_facts c
        (twoDigits_tenDigit (Nat.mod_lt _ (by norm_num)) c hc)).1)]
    rw [mantVal_cents]
  simp only [parse_money, if_neg htne, hcore, hneg]
  by_cases hz : z < 0
  · have hdata : ((if z < 0 then ['-'] else []) ++ natToChars (z.natAbs / 100)
        ++ '.' :: twoDigits (z.natAbs % 100))
        = '-' :: c0 :: (cs ++ '.' :: twoDigits (z.natAbs % 100)) := by
      rw [if_pos hz, hnc]
      simp
    rw [hdata]
    have htr2 : pytrimL ('-' :: c0 :: (cs ++ '.' :: twoDigits (z.natAbs % 100)))
        = '-' :: c0 :: (cs ++ '.' :: twoDigits (z.natAbs % 100)) := by
      apply pytrimL_eq_self
      intro c hc
      rcases List.mem_cons.mp hc with rfl | hc2
      · decide
      · exact hbody_ws c (by rw [hnc]; simpa using hc2)
    have hq2 : parseNumber (c0 :: (cs ++ '.' :: twoDigits (z.natAbs % 100)))
        = some ((z.natAbs : ℚ) / 100, []) := by
      have : c0 :: (cs ++ '.' :: twoDigits (z.natAbs % 100))
          = natToChars (z.natAbs / 100) ++ '.' :: twoDigits (z.natAbs % 100) := by
        rw [hnc]; simp
      rw [this, hq]
    rw [pyFloatOfString_eval_neg htr2 hc0 hq2]
    have hv : -((z.natAbs : ℚ) / 100) = (z : ℚ) / 100 := by
      rw [Int.cast_natAbs, abs_of_neg hz]
      push_cast
      ring
    rw [hv]
    simp
  · have hdata : ((if z < 0 then ['-'] else []) ++ natToChars (z.natAbs / 100)
        ++ '.' :: twoDigits (z.natAbs % 100))
        = c0 :: (cs ++ '.' :: twoDigits (z.natAbs % 100)) := by
      rw [if_neg hz, hnc]
      simp
    rw [hdata]
    have htr2 : pytrimL (c0 :: (cs ++ '.' :: twoDigits (z.natAbs % 100)))
        = c0 :: (cs ++ '.' :: twoDigits (z.natAbs % 100)) := by
      apply pytrimL_eq_self
      intro c hc
      exact hbody_ws c (by rw [hnc]; simpa using hc)
    have hq2 : parseNumber (c0 :: (cs ++ '.' :: twoDigits (z.natAbs % 100)))
        = some ((z.natAbs : ℚ) / 100, []) := by
      have : c0 :: (cs ++ '.' :: twoDigits (z.natAbs % 100))
          = natToChars (z.natAbs / 100) ++ '.' :: twoDigits (z.natAbs % 100) := by
        rw [hnc]; simp
      rw [this, hq]
    rw [pyFloatOfString_eval_pos htr2 hc0 hq2]
    have hv : ((z.natAbs : ℚ) / 100) = (z : ℚ) / 100 := by
      rw [Int.cast_natAbs, abs_of_nonneg (not_lt.mp hz)]
    rw [hv]
    simp

theorem parse_money_dollar_1234_56 :
    parse_money (some "$1,234.56") = .finite (123456 / 100) := by
  have h := parse_money_fmt_cents 123456
  rw [fmt_money_cents] at h
  rw [show ("$1,234.56" : String) = ⟨'$' :: moneyChars 123456⟩ from by decide]
  rw [h]
  norm_num

theorem parse_money_paren_500 : parse_money (some "(500)") = .finite (-500) := by
  have hm : mantVal ['5', '0', '0'] [] = 500 := by
    simp only [mantVal, show natOfDigits ['5', '0', '0'] = 500 from by decide,
      show natOfDigits [] = 0 from rfl]
    norm_num
  have hq : parseNumber ['5', '0', '0'] = some (500, []) := by
    rw [parseNumber_int (by decide) (by decide), hm]
  have hval : pyFloatOfString "500" = some (.finite 500) := by
    rw [show ("500" : String) = ⟨'5' :: ['0', '0']⟩ from by decide]
    exact pyFloatOfString_eval_pos (by decide) (by decide) hq
  simp only [parse_money, if_neg (by decide : ¬pytrim "(500)" = ""),
    show money_core "(500)" = "500" from by decide, hval,
    show money_is_neg "(500)" = true from by decide]
  simp [pyNeg]

theorem parse_money_unparseable (s : String)
    (h : pyFloatOfString (money_core s) = none) : parse_money (some s) = .finite 0 := by
  simp only [parse_money]
  by_cases ht : pytrim s = ""
  · rw [if_pos ht]
  · rw [if_neg ht, h]

/-- C3 (counterexample): the claim maps "nan" to 0.0, but parse_money
accepts "nan" through the float builtin and returns NaN, which is not
equal to 0.0. -/
theorem c3_parse_money_nan_counterexample :
    parse_money (some "nan") = PyFloat.nan ∧ PyFloat.nan ≠ PyFloat.finite 0 :=
  ⟨by decide, by decide⟩

/-- C3 (amended): parse_money inverts fmt_money exactly on every whole
number of cents; parse_money maps "$1,234.56" to 1234.56, "(500)" to
-500.0 and "" to 0.0; and parse_money never raises — every input the
float builtin rejects is coerced to the safe default 0.0 (whereas "nan"
is accepted by the float builtin and yields NaN, not 0.0). -/
theorem c3_money_roundtrip_amended :
    (∀ z : ℤ, parse_money (some (fmt_money (.finite ((z : ℚ) / 100))))
        = .finite ((z : ℚ) / 100))
    ∧ parse_money (some "$1,234.56") = .finite (123456 / 100)
    ∧ parse_money (some "(500)") = .finite (-500)
    ∧ parse_money (some "") = .finite 0
    ∧ (∀ s, pyFloatOfString (money_core s) = none → parse_money (some s) = .finite 0) :=
  ⟨parse_money_fmt_cents, parse_money_dollar_1234_56, parse_money_paren_500,
    by decide, parse_money_unparseable⟩

/-- C3 (witness): the amended round trip at -123.45 dollars, and the
coercion of an unparseable input to zero. -/
theorem c3_money_roundtrip_amended_witness :
    parse_money (some (fmt_money (.finite (((-12345 : ℤ) : ℚ) / 100))))
      = .finite (((-12345 : ℤ) : ℚ) / 100)
    ∧ parse_money (some "abc") = .finite 0 :=
  ⟨c3_money_roundtrip_amended.1 (-12345),
    c3_money_roundtrip_amended.2.2.2.2 "abc" (by decide)⟩

theorem ratFloor_eq_floor (x : ℚ) : ratFloor x = ⌊x⌋ := by
  rw [ratFloor, Rat.floor_def]
  exact Int.fdiv_eq_ediv _ (by positivity)

theorem roundHalfEven_four_fifths : roundHalfEven (4 / 5) = 1 := by
  rw [roundHalfEven]
  simp only [ratFloor_eq_floor]
  norm_num

theorem pyFloat_zero_point_eight : pyFloatOfString "0.8" = some (.finite (4 / 5)) := by
  have hm : mantVal ['0'] ['8'] = 4 / 5 := by
    simp only [mantVal, show natOfDigits ['0'] = 0 from by decide,
      show natOfDigits ['8'] = 8 from by decide, List.length_singleton]
    norm_num
  have hq : parseNumber ['0', '.', '8'] = some (4 / 5, []) := by
    rw [show (['0', '.', '8'] : List Char) = ['0'] ++ '.' :: ['8'] from rfl,
      parseNumber_dot (by decide) (by decide) (by decide) (by decide), hm]
  rw [show ("0.8" : String) = ⟨'0' :: ['.', '8']⟩ from by decide]
  exact pyFloatOfString_eval_pos (by decide) (by decide) hq

theorem pyFloat_hundred : pyFloatOfString "100" = some (.finite 100) := by
  have hm : mantVal ['1', '0', '0'] [] = 100 := by
    simp only [mantVal, show natOfDigits ['1', '0', '0'] = 100 from by decide,
      show natOfDigits [] = 0 from rfl]
    norm_num
  have hq : parseNumber ['1', '0', '0'] = some (100, []) := by
    rw [parseNumber_int (by decide) (by decide), hm]
  rw [show ("100" : String) = ⟨'1' :: ['0', '0']⟩ from by decide]
  exact pyFloatOfString_eval_pos (by decide) (by decide) hq

/-- C8 (counterexample): the claim maps "0.8" to "80%", but the handler
performs no fraction-times-one-hundred conversion: it formats the parsed
float with no decimals, so "0.8" becomes "1%". -/
theorem c8_normalize_pct_counterexample :
    normalize_pct "0.8" = "1%" ∧ ("1%" : String) ≠ "80%" := by
  constructor
  · rw [normalize_pct, if_pos (by decide)]
    rw [show pytrim (removeAllChar '%' (pytrim "0.8")) = "0.8" from by decide,
      pyFloat_zero_point_eight]
    show fmtF0 (PyFloat.finite (4 / 5)) ++ "%" = "1%"
    rw [fmtF0.eq_def]
    simp only [roundHalfEven_four_fifths]
    norm_num
    decide
  · decide

/-- C8 (amended): the holdback normalisation maps "100" to "100%" and ""
to "", but "0.8" to "1%": a value not already ending in a percent sign is
parsed as a float and formatted with no decimals (rounding to the nearest
whole number) before the percent sign is appended — values in (0,1] are
not treated as fractions and are not multiplied by one hundred. -/
theorem c8_normalize_pct_amended :
    normalize_pct "100" = "100%" ∧ normalize_pct "0.8" = "1%" ∧ normalize_pct "" = "" := by
  refine ⟨?_, ?_, by decide⟩
  · rw [normalize_pct, if_pos (by decide)]
    rw [show pytrim (removeAllChar '%' (pytrim "100")) = "100" from by decide,
      pyFloat_hundred]
    show fmtF0 (PyFloat.finite 100) ++ "%" = "100%"
    rw [fmtF0.eq_def]
    simp only [show roundHalfEven (100 : ℚ) = 100 from by
      have h := roundHalfEven_intCast 100
      simpa using h]
    norm_num
    decide
  · rw [normalize_pct, if_pos (by decide)]
    rw [show pytrim (removeAllChar '%' (pytrim "0.8")) = "0.8" from by decide,
      pyFloat_zero_point_eight]
    show fmtF0 (PyFloat.finite (4 / 5)) ++ "%" = "1%"
    rw [fmtF0.eq_def]
    simp only [roundHalfEven_four_fifths]
    norm_num
    decide

/-! ### The payment cross-reference (C1, C2, C9) -/

theorem head_filter_eq_find {α : Type} (p : α → Bool) (l : List α) :
    (l.filter p).head? = l.find? p := by
  induction l with
  | nil => rfl
  | cons r rest ih =>
    rw [List.filter_cons, List.find?_cons]
    by_cases hp : p r
    · simp [hp]
    · simp only [Bool.not_eq_true] at hp
      simp [hp, ih]


/-- C1: the precheck payment lookup first attempts the exact deal-id
match — each row's order identifier is split at its first dash, the
digits of the left part compared against the digits of the deal number,
the first equal row in table order winning — and it falls back to the
address-similarity matcher exactly when that finds nothing (including
when the table is empty or the deal number has no digits). -/
theorem c1_payment_match_exact_first (table : List CafRow)
    (deal sf_addr osc_addr : String) :
    caf_match_for_prechecks table deal sf_addr osc_addr =
      (if table = [] ∨ digits_only deal = "" then
        caf_try_match_by_address table sf_addr osc_addr
      else
        match table.find? (fun r => extract_order_id_left_digits r.order_id == digits_only deal)
        with
        | some r => ⟨true, none, some r, "deal id"⟩
        | none => caf_try_match_by_address table sf_addr osc_addr) := by
  by_cases hT : table = []
  · subst hT
    simp [caf_match_for_prechecks, caf_try_match_by_deal_id]
  · by_cases hd : digits_only deal = ""
    · have hid : caf_try_match_by_deal_id table deal =
          ⟨false, some "Missing deal number.", none, "deal id"⟩ := by
        rw [caf_try_match_by_deal_id, if_neg (by simp [hT]), if_pos hd]
      rw [caf_match_for_prechecks, hid, if_neg (by decide), if_pos (Or.inr hd)]
    · rw [if_neg (by simp [hT, hd])]
      rw [caf_match_for_prechecks]
      have hfe := head_filter_eq_find
        (fun r => extract_order_id_left_digits r.order_id == digits_only deal) table
      cases hh : table.find?
          (fun r => extract_order_id_left_digits r.order_id == digits_only deal) with
      | some r =>
        have hid : caf_try_match_by_deal_id table deal =
            ⟨true, none, some r, "deal id"⟩ := by
          rw [caf_try_match_by_deal_id, if_neg (by simp [hT]), if_neg hd,
            hfe, hh]
        rw [hid]
        rfl
      | none =>
        have hid : caf_try_match_by_deal_id table deal =
            ⟨false, some "No payment record found by deal ID.", none, "deal id"⟩ := by
          rw [caf_try_match_by_deal_id, if_neg (by simp [hT]), if_neg hd,
            hfe, hh]
        rw [hid, if_neg (by decide)]

theorem jaccard_self {a : Finset String} (h : a ≠ ∅) : jaccard a a = 1 := by
  rw [jaccard, if_neg (by simp [h])]
  rw [Finset.inter_self, Finset.union_self]
  rw [if_neg (by simp [Finset.card_eq_zero, h])]
  rw [div_self]
  simp [Finset.card_eq_zero, h]

theorem jaccard_disjoint {a b : Finset String} (h : a ∩ b = ∅) : jaccard a b = 0 := by
  rw [jaccard]
  by_cases he : a = ∅ ∨ b = ∅
  · rw [if_pos he]
  · rw [if_neg he]
    by_cases hu : (a ∪ b).card = 0
    · rw [if_pos hu]
    · rw [if_neg hu, h]
      simp

theorem filter_singleton_cases (p : CafRow → Bool) (r : CafRow) :
    List.filter p [r] = [] ∨ List.filter p [r] = [r] := by
  by_cases hp : p r
  · right; simp [List.filter_cons, hp]
  · left; simp [List.filter_cons, hp]

theorem caf_prefilter_singleton (t : String) (r : CafRow) :
    caf_prefilter t [r] = [] ∨ caf_prefilter t [r] = [r] := by
  rw [caf_prefilter]
  rcases filter_singleton_cases
      (fun x => zip5_from_addr x.property_address == zip5_from_addr t) r with h1 | h1
  · by_cases hz : zip5_from_addr t ≠ ""
    · simp only [if_pos hz, h1]
      left
      simp
    · simp only [if_neg hz]
      rcases filter_singleton_cases
          (fun x => house_num_from_addr x.property_address == house_num_from_addr t) r with
        h2 | h2
      · by_cases hh : house_num_from_addr t ≠ "" ∧ ([r] : List CafRow).isEmpty = false
        · rw [if_pos hh, h2]; left; rfl
        · rw [if_neg hh]; right; rfl
      · by_cases hh : house_num_from_addr t ≠ "" ∧ ([r] : List CafRow).isEmpty = false
        · rw [if_pos hh, h2]; right; rfl
        · rw [if_neg hh]; right; rfl
  · by_cases hz : zip5_from_addr t ≠ ""
    · simp only [if_pos hz, h1]
      rcases filter_singleton_cases
          (fun x => house_num_from_addr x.property_address == house_num_from_addr t) r with
        h2 | h2
      · by_cases hh : house_num_from_addr t ≠ "" ∧ ([r] : List CafRow).isEmpty = false
        · rw [if_pos hh, h2]; left; rfl
        · rw [if_neg hh]; right; rfl
      · by_cases hh : house_num_from_addr t ≠ "" ∧ ([r] : List CafRow).isEmpty = false
        · rw [if_pos hh, h2]; right; rfl
        · rw [if_neg hh]; right; rfl
    · simp only [if_neg hz]
      rcases filter_singleton_cases
          (fun x => house_num_from_addr x.property_address == house_num_from_addr t) r with
        h2 | h2
      · by_cases hh : house_num_from_addr t ≠ "" ∧ ([r] : List CafRow).isEmpty = false
        · rw [if_pos hh, h2]; left; rfl
        · rw [if_neg hh]; right; rfl
      · by_cases hh : house_num_from_addr t ≠ "" ∧ ([r] : List CafRow).isEmpty = false
        · rw [if_pos hh, h2]; right; rfl
        · rw [if_neg hh]; right; rfl

theorem caf_singleton_match (a : String) (r : CafRow) (hat : pytrim a = a) (ha : a ≠ "") :
    caf_try_match_by_address [r] a "" =
      (if jaccard (address_tokens a) (address_tokens r.property_address) < 45 / 100 then
        ⟨false, some "No close address match found.", none, "address"⟩
      else ⟨true, none, some r, "address match"⟩) := by
  have htgt : (if normalize_text (some a) ≠ "" then normalize_text (some a)
      else normalize_text (some "")) = a := by
    rw [normalize_text, hat, if_pos ha]
  have hcands : (if (caf_prefilter a [r]).isEmpty = true then [r] else caf_prefilter a [r])
      = [r] := by
    rcases caf_prefilter_singleton a r with h | h
    · rw [h]; rfl
    · rw [h]; rfl
  simp only [caf_try_match_by_address, htgt, if_neg ha, hcands, List.isEmpty_cons,
    Bool.false_eq_true, if_false, List.map_cons, List.map_nil, argmaxFirst]

theorem addr_tokens_ne_empty_imp {a : String} (h : address_tokens a ≠ ∅) : a ≠ "" := by
  intro he
  subst he
  exact h rfl

/-- C2: when two addresses normalise to the same nonempty token set
(as with a ZIP+4 suffix against its ZIP5 form, or directional, state and
street-suffix abbreviations against their long forms), their Jaccard
score is 1, at or above the 0.45 acceptance threshold, and the address
matcher accepts the candidate; when two addresses share no normalised
token, the score is 0 and no match is reported. -/
theorem c2_address_threshold (a b c d : String)
    (hat : pytrim a = a) (hct : pytrim c = c)
    (h1 : address_tokens a = address_tokens b) (h2 : address_tokens a ≠ ∅)
    (h3 : address_tokens c ∩ address_tokens d = ∅) :
    (jaccard (address_tokens a) (address_tokens b) = 1
      ∧ 45 / 100 ≤ jaccard (address_tokens a) (address_tokens b)
      ∧ ∀ oid s1 s2 s3 s4,
          caf_try_match_by_address [⟨oid, b, s1, s2, s3, s4⟩] a ""
            = ⟨true, none, some ⟨oid, b, s1, s2, s3, s4⟩, "address match"⟩)
    ∧ (jaccard (address_tokens c) (address_tokens d) = 0
      ∧ ∀ oid s1 s2 s3 s4,
          (caf_try_match_by_address [⟨oid, d, s1, s2, s3, s4⟩] c "").found = false) := by
  have hja : jaccard (address_tokens a) (address_tokens b) = 1 := by
    rw [← h1]
    exact jaccard_self h2
  have hjc : jaccard (address_tokens c) (address_tokens d) = 0 := jaccard_disjoint h3
  refine ⟨⟨hja, by rw [hja]; norm_num, ?_⟩, hjc, ?_⟩
  · intro oid s1 s2 s3 s4
    rw [caf_singleton_match a ⟨oid, b, s1, s2, s3, s4⟩ hat (addr_tokens_ne_empty_imp h2)]
    rw [if_neg (by rw [hja]; norm_num)]
  · intro oid s1 s2 s3 s4
    by_cases hc : c = ""
    · subst hc
      have hB : normalize_text (some "") = "" := by decide
      simp only [caf_try_match_by_address, List.isEmpty_cons, Bool.false_eq_true,
        if_false, hB]
      simp
    · rw [caf_singleton_match c ⟨oid, d, s1, s2, s3, s4⟩ hct hc]
      rw [if_pos (by rw [hjc]; norm_num)]

/-- C2 (witness): North Main St 90210-1234 matches N Main Street 90210;
123 Elm St does not match 987 Oak Ave Portland. -/
theorem c2_address_threshold_witness :
    caf_try_match_by_address [cafRowMain] "North Main St 90210-1234" ""
      = ⟨true, none, some cafRowMain, "address match"⟩
    ∧ (caf_try_match_by_address [cafRowOak] "123 Elm St" "").found = false := by
  have h := c2_address_threshold "North Main St 90210-1234" "N Main Street 90210"
    "123 Elm St" "987 Oak Ave Portland" (by decide) (by decide) (by decide) (by decide)
    (by decide)
  exact ⟨h.1.2.2 "55555-1" none none none none, h.2.2 "" none none none none⟩
/-- C9: when the ZIP5 and house-number pre-filters eliminate every
candidate row, the address matcher silently rescores the entire payment
table instead of reporting no match, so the best-scoring row of the
whole table is returned whenever its token Jaccard score reaches 0.45 —
even when it agrees with the target in neither ZIP5 nor house number. -/
theorem c9_prefilter_fallback_rescan (sf_addr osc_addr target : String)
    (table : List CafRow)
    (htgt : target = (if normalize_text (some sf_addr) ≠ "" then normalize_text (some sf_addr)
      else normalize_text (some osc_addr)))
    (hne : table ≠ []) (ht : target ≠ "")
    (hpf : caf_prefilter target table = []) :
    caf_try_match_by_address table sf_addr osc_addr =
      (match argmaxFirst (table.map (fun r =>
          (r, jaccard (address_tokens target) (address_tokens r.property_address)))) with
      | none => ⟨false, some "No address candidates found.", none, "address"⟩
      | some p =>
        if p.2 < 45 / 100 then
          ⟨false, some "No close address match found.", none, "address"⟩
        else ⟨true, none, some p.1, "address match"⟩) := by
  have hT : table.isEmpty = false := by
    cases table with
    | nil => exact absurd rfl hne
    | cons x xs => rfl
  simp only [caf_try_match_by_address, ← htgt, if_neg ht, hT, Bool.false_eq_true, if_false,
    hpf, List.isEmpty_nil, if_true]

/-- C9 (witness): with target 123 Main St Portland OR 97201 and a table
holding only 456 Main St Portland OR 97202, the pre-filters leave
nothing, yet the matcher returns that row (score one half), although it
differs from the target in both ZIP5 and house number. -/
theorem c9_prefilter_fallback_rescan_witness :
    caf_try_match_by_address [cafRowPortland] "123 Main St Portland OR 97201" ""
      = ⟨true, none, some cafRowPortland, "address match"⟩
    ∧ zip5_from_addr cafRowPortland.property_address
        ≠ zip5_from_addr "123 Main St Portland OR 97201"
    ∧ house_num_from_addr cafRowPortland.property_address
        ≠ house_num_from_addr "123 Main St Portland OR 97201" := by
  have h := c9_prefilter_fallback_rescan "123 Main St Portland OR 97201" ""
    "123 Main St Portland OR 97201" [cafRowPortland] (by decide) (by decide) (by decide)
    (by decide)
  refine ⟨?_, by decide, by decide⟩
  have hj : jaccard (address_tokens "123 Main St Portland OR 97201")
      (address_tokens cafRowPortland.property_address) = 4 / 8 := by
    rw [jaccard, if_neg (by decide), if_neg (by decide)]
    rw [show ((address_tokens "123 Main St Portland OR 97201"
        ∩ address_tokens cafRowPortland.property_address).card) = 4 from by decide]
    rw [show ((address_tokens "123 Main St Portland OR 97201"
        ∪ address_tokens cafRowPortland.property_address).card) = 8 from by decide]
    norm_num
  rw [h]
  simp only [List.map_cons, List.map_nil, argmaxFirst, hj]
  rw [if_neg (by norm_num)]
theorem osc_lookup_row_eq (oscT : List OscRow) (k : String) :
    (osc_lookup oscT k).row
      = (if pytrim k = "" then none
        else oscT.find? (fun r => pytrim r.account_number == pytrim k)) := by
  cases oscT with
  | nil =>
    rw [osc_lookup]
    by_cases hk : pytrim k = "" <;> simp [hk]
  | cons x xs =>
    rw [osc_lookup, if_neg (by simp)]
    by_cases hk : pytrim k = ""
    · rw [if_pos hk, if_pos hk]
    · rw [if_neg hk, if_neg hk, ← head_filter_eq_find]
      cases hh : ((x :: xs).filter (fun r => pytrim r.account_number == pytrim k)).head? with
      | none => rfl
      | some r => rfl

theorem osc_lookup_found_iff (oscT : List OscRow) (k : String) :
    (osc_lookup oscT k).found = true ↔ ∃ r ∈ oscT, (osc_lookup oscT k).row = some r := by
  rw [osc_lookup_row_eq]
  cases oscT with
  | nil =>
    rw [osc_lookup]
    by_cases hk : pytrim k = "" <;> simp [hk]
  | cons x xs =>
    rw [osc_lookup, if_neg (by simp)]
    by_cases hk : pytrim k = ""
    · rw [if_pos hk]
      simp [hk]
    · rw [if_neg hk, if_neg hk, ← head_filter_eq_find]
      cases hh : ((x :: xs).filter (fun r => pytrim r.account_number == pytrim k)).head? with
      | none => simp [hh]
      | some r =>
        have hr : r ∈ (x :: xs).filter (fun r => pytrim r.account_number == pytrim k) :=
          List.mem_of_mem_head? (by rw [hh]; exact rfl)
        simp only [hh]
        constructor
        · intro _
          exact ⟨r, List.mem_of_mem_filter hr, rfl⟩
        · intro _
          trivial

theorem run_prechecks_overall_iff (oscT : List OscRow) (cafT : List CafRow) (opp : Opp)
    (prop : Option PropRec) (loan : Option LoanRec) (input : String) :
    ((run_prechecks oscT cafT opp prop loan input).overall_ok = true ↔
      (pick_first [prop.bind (fun p => p.Servicer_Id__c), opp.Servicer_Commitment_Id__c,
          loan.bind (fun l => l.Servicer_Loan_Id__c)] ≠ ""
        ∧ ∃ r, (osc_lookup oscT (pick_first [prop.bind (fun p => p.Servicer_Id__c),
            opp.Servicer_Commitment_Id__c, loan.bind (fun l => l.Servicer_Loan_Id__c)])).row
            = some r
          ∧ pylower (pytrim (normalize_text r.primary_status)) = TARGET_INSURANCE_OK)) := by
  set key := pick_first [prop.bind (fun p => p.Servicer_Id__c), opp.Servicer_Commitment_Id__c,
    loan.bind (fun l => l.Servicer_Loan_Id__c)] with hkey
  simp only [run_prechecks]
  rw [← hkey]
  simp only [Bool.and_eq_true, bne_iff_ne, ne_eq, beq_iff_eq]
  constructor
  · rintro ⟨⟨hk, hf⟩, hf2, hok⟩
    obtain ⟨r, hrmem, hrow⟩ := (osc_lookup_found_iff oscT key).mp hf
    refine ⟨hk, r, hrow, ?_⟩
    rw [if_pos hf, hrow] at hok
    simpa using hok
  · rintro ⟨hk, r, hrow, hok⟩
    have hf : (osc_lookup oscT key).found = true := by
      rw [osc_lookup_row_eq] at hrow
      by_cases hkey0 : pytrim key = ""
      · rw [if_pos hkey0] at hrow
        exact absurd hrow (by simp)
      · rw [if_neg hkey0] at hrow
        have hmem := List.mem_of_find?_eq_some hrow
        exact (osc_lookup_found_iff oscT key).mpr
          ⟨r, hmem, by rw [osc_lookup_row_eq, if_neg hkey0, hrow]⟩
    refine ⟨⟨hk, hf⟩, hf, ?_⟩
    rw [if_pos hf, hrow]
    simpa using hok

/-- **C5.** The insurance cross-reference (`osc_lookup`) matches only by exact
equality on the normalized (trimmed) account/servicer key column — the selected
row is literally the first row whose trimmed `account_number` equals the trimmed
key, with no fuzzy fallback, and nothing is found for an empty key. Moreover the
overall pass flag of `run_prechecks` is true exactly when the servicer key is
present (non-empty), an insurance row is found for that key, and that row's
`primary_status` equals the target phrase case-insensitively. -/
theorem c5_insurance_exact_and_overall :
    (∀ (oscT : List OscRow) (k : String),
      (osc_lookup oscT k).row
        = (if pytrim k = "" then none
          else oscT.find? (fun r => pytrim r.account_number == pytrim k)))
    ∧ (∀ (oscT : List OscRow) (k : String),
      (osc_lookup oscT k).found = true ↔ ∃ r ∈ oscT, (osc_lookup oscT k).row = some r)
    ∧ (∀ (oscT : List OscRow) (cafT : List CafRow) (opp : Opp)
        (prop : Option PropRec) (loan : Option LoanRec) (input : String),
      (run_prechecks oscT cafT opp prop loan input).overall_ok = true ↔
        (pick_first [prop.bind (fun p => p.Servicer_Id__c), opp.Servicer_Commitment_Id__c,
            loan.bind (fun l => l.Servicer_Loan_Id__c)] ≠ ""
          ∧ ∃ r, (osc_lookup oscT (pick_first [prop.bind (fun p => p.Servicer_Id__c),
              opp.Servicer_Commitment_Id__c, loan.bind (fun l => l.Servicer_Loan_Id__c)])).row
              = some r
            ∧ pylower (pytrim (normalize_text r.primary_status)) = TARGET_INSURANCE_OK)) :=
  ⟨osc_lookup_row_eq, osc_lookup_found_iff, run_prechecks_overall_iff⟩

/-- C4 counterexample: for the bundle in which every field is absent, the
checklist consists of exactly the three rows "Servicer identifier",
"Payment info (optional)" and "HUD address source" — there is no row for a
late-fee rule (no check name even mentions "late") and none for
servicer-status disqualifying substrings. -/
theorem c4_checklist_counterexample :
    (run_prechecks [] [] emptyOpp none none "").checks.map (fun c => c.check)
      = ["Servicer identifier", "Payment info (optional)", "HUD address source"]
    ∧ (run_prechecks [] [] emptyOpp none none "").checks.length = 3
    ∧ (run_prechecks [] [] emptyOpp none none "").checks.all
        (fun c => !hasSubstr (pylower c.check).data "late".data) = true := by
  decide

/-- **C4 (amended).** For every input bundle of resolved records, including one
in which every field is absent, run_prechecks returns a non-empty checklist: it
always holds exactly three rows — the blocking servicer/insurance check (named
"Servicer identifier" when the key is missing, "Insurance status" otherwise),
the informational "Payment info (optional)" check and the "HUD address source"
check — never an empty list. There are no late-fee or servicer-status rows. -/
theorem c4_checklist_total_amended (oscT : List OscRow) (cafT : List CafRow) (opp : Opp)
    (prop : Option PropRec) (loan : Option LoanRec) (input : String) :
    (run_prechecks oscT cafT opp prop loan input).checks ≠ []
    ∧ (run_prechecks oscT cafT opp prop loan input).checks.length = 3
    ∧ ((run_prechecks oscT cafT opp prop loan input).checks.map (fun c => c.check)
        = ["Servicer identifier", "Payment info (optional)", "HUD address source"]
      ∨ (run_prechecks oscT cafT opp prop loan input).checks.map (fun c => c.check)
        = ["Insurance status", "Payment info (optional)", "HUD address source"]) := by
  simp only [run_prechecks]
  refine ⟨by simp, by simp, ?_⟩
  split_ifs <;> simp
theorem insertByCloseDesc_eq (x : OppRecord) (l : List OppRecord) :
    insertByCloseDesc x l = l.orderedInsert (fun a b => b.CloseDate ≤ a.CloseDate) x := by
  induction l with
  | nil => rfl
  | cons y rest ih => simp [insertByCloseDesc, List.orderedInsert, ih]

theorem sortByCloseDesc_eq (l : List OppRecord) :
    sortByCloseDesc l = l.insertionSort (fun a b => b.CloseDate ≤ a.CloseDate) := by
  induction l with
  | nil => rfl
  | cons x rest ih => simp [sortByCloseDesc, List.insertionSort, ih, insertByCloseDesc_eq]

theorem sortByCloseDesc_perm (l : List OppRecord) :
    (sortByCloseDesc l).Perm l := by
  rw [sortByCloseDesc_eq]
  exact List.perm_insertionSort _ l

theorem sortByCloseDesc_head_max (l : List OppRecord) (r : OppRecord) (rest : List OppRecord)
    (h : sortByCloseDesc l = r :: rest) : ∀ a ∈ l, a.CloseDate ≤ r.CloseDate := by
  haveI : IsTotal OppRecord (fun a b => b.CloseDate ≤ a.CloseDate) :=
    ⟨fun a b => (Nat.le_total b.CloseDate a.CloseDate)⟩
  haveI : IsTrans OppRecord (fun a b => b.CloseDate ≤ a.CloseDate) :=
    ⟨fun a b c hab hbc => Nat.le_trans hbc hab⟩
  have hs := List.sorted_insertionSort (fun a b => b.CloseDate ≤ a.CloseDate) l
  rw [← sortByCloseDesc_eq, h] at hs
  intro a ha
  have ham : a ∈ r :: rest := by
    rw [← h]
    exact ((sortByCloseDesc_perm l).mem_iff).mpr ha
  rcases List.mem_cons.mp ham with heq | hmem
  · exact heq ▸ Nat.le_refl _
  · exact List.rel_of_sorted_cons hs a hmem

theorem take10_head (l : List OppRecord) : (l.take 10).head? = l.head? := by
  cases l <;> rfl

/-- C6 counterexample: on a store holding an exact match (deal number "123",
earlier close date) and a mere contains match (deal number "1234", later close
date), the implemented resolver returns the contains match, while the
exact-first retry procedure the specification describes (spec_resolve_deal)
returns the exact match — the two records differ. -/
theorem c6_fetch_or_query_counterexample :
    fetch_opportunity_by_deal_number demoStore "123" = some oppContains
    ∧ spec_resolve_deal demoStore "123" = some oppExact
    ∧ oppContains ≠ oppExact := by
  decide

/-- **C6 (amended).** Deal resolution strips non-digit characters from the
trimmed input and returns None when the key is empty; otherwise it issues a
single query whose WHERE clause is equality OR containment on the identifier
field, ordered by close date descending — there is no exact-then-contains
retry.  It returns None exactly when the key is empty or no record matches the
disjunctive clause (so it never returns a record for a nonexistent
identifier), and any record it returns belongs to the store, satisfies the
disjunctive match, and has the latest close date among all matching records. -/
theorem c6_fetch_amended (store : List OppRecord) (deal_number : String) :
    (fetch_opportunity_by_deal_number store deal_number = none ↔
      (digits_only (pytrim deal_number) = ""
        ∨ store.filter (oppMatchesDeal (digits_only (pytrim deal_number))) = []))
    ∧ (∀ r, fetch_opportunity_by_deal_number store deal_number = some r →
        r ∈ store ∧ oppMatchesDeal (digits_only (pytrim deal_number)) r = true
          ∧ ∀ r2 ∈ store, oppMatchesDeal (digits_only (pytrim deal_number)) r2 = true →
              r2.CloseDate ≤ r.CloseDate) := by
  by_cases hdn : digits_only (pytrim deal_number) = ""
  · constructor
    · simp [fetch_opportunity_by_deal_number, hdn]
    · intro r h
      rw [fetch_opportunity_by_deal_number] at h
      simp only [hdn, if_pos] at h
      exact absurd h (by simp)
  · have hfe : fetch_opportunity_by_deal_number store deal_number
        = (sortByCloseDesc (store.filter
            (oppMatchesDeal (digits_only (pytrim deal_number))))).head? := by
      rw [fetch_opportunity_by_deal_number]
      simp only [hdn, if_neg, ite_false]
      exact take10_head _
  -- placeholder
    constructor
    · rw [hfe]
      cases hsort : sortByCloseDesc (store.filter
          (oppMatchesDeal (digits_only (pytrim deal_number)))) with
      | nil =>
        have : store.filter (oppMatchesDeal (digits_only (pytrim deal_number))) = [] := by
          have := (sortByCloseDesc_perm (store.filter
            (oppMatchesDeal (digits_only (pytrim deal_number))))).length_eq
          rw [hsort] at this
          exact List.length_eq_zero.mp this.symm
        simp [this, hdn]
      | cons x rest =>
        simp only [List.head?_cons]
        constructor
        · intro h
          exact absurd h (by simp)
        · intro h
          rcases h with h | h
          · exact absurd h hdn
          · rw [h] at hsort
            exact absurd hsort (by simp [sortByCloseDesc])
    · intro r h
      rw [hfe] at h
      cases hsort : sortByCloseDesc (store.filter
          (oppMatchesDeal (digits_only (pytrim deal_number)))) with
      | nil => rw [hsort] at h; exact absurd h (by simp)
      | cons x rest =>
        rw [hsort] at h
        simp only [List.head?_cons, Option.some.injEq] at h
        subst h
        have hrmem : x ∈ store.filter (oppMatchesDeal (digits_only (pytrim deal_number))) := by
          have hx : x ∈ sortByCloseDesc (store.filter
              (oppMatchesDeal (digits_only (pytrim deal_number)))) := by
            rw [hsort]; exact List.mem_cons_self _ _
          exact (sortByCloseDesc_perm _).mem_iff.mp hx
        have hsp := List.mem_filter.mp hrmem
        refine ⟨hsp.1, hsp.2, ?_⟩
        intro r2 hr2 hm2
        exact sortByCloseDesc_head_max _ x rest hsort r2 (List.mem_filter.mpr ⟨hr2, hm2⟩)
theorem tqd_loop_ne_outOfFuel {Row : Type} (exec : List String → Option String → QueryRes Row)
    (ctx : SoqlCtx) :
    ∀ (fuel : Nat) (fields : List String) (ob : Option String),
      fields.length + obCount ob < fuel →
      tqd_loop exec ctx fields ob fuel ≠ QueryOutcome.outOfFuel := by
  intro fuel
  induction fuel with
  | zero => intro fields ob h; exact absurd h (by omega)
  | succ fuel ih =>
    intro fields ob h
    simp only [tqd_loop]
    cases hex : exec fields ob with
    | ok rows => simp
    | err msg =>
      simp only []
      by_cases hob : (ob.isSome && (hasSubstr "unexpected token".data (pylower msg).data
          || hasSubstr "nulls".data (pylower msg).data)) = true
      · rw [if_pos hob]
        apply ih
        have hsome : ob.isSome = true := by
          cases ob <;> simp_all
        have : obCount ob = 1 := by cases ob <;> simp_all [obCount]
        simp only [obCount]
        omega
      · rw [if_neg hob]
        cases hbf : parse_bad_field msg with
        | none => simp
        | some bad =>
          simp only []
          by_cases hin : bad ≠ "" ∧ bad ∈ fields
          · rw [if_pos hin]
            by_cases hemp : (fields.erase bad).isEmpty = true
            · rw [if_pos hemp]; simp
            · rw [if_neg hemp]
              apply ih
              have hlen : (fields.erase bad).length = fields.length - 1 :=
                List.length_erase_of_mem hin.2
              have hpos : 1 ≤ fields.length := List.length_pos.mpr
                (List.ne_nil_of_mem hin.2)
              omega
          · rw [if_neg hin]; simp

theorem tqd_loop_fuel_eq {Row : Type} (exec : List String → Option String → QueryRes Row)
    (ctx : SoqlCtx) :
    ∀ (fuel fuel2 : Nat) (fields : List String) (ob : Option String),
      fields.length + obCount ob < fuel →
      fields.length + obCount ob < fuel2 →
      tqd_loop exec ctx fields ob fuel = tqd_loop exec ctx fields ob fuel2 := by
  intro fuel
  induction fuel with
  | zero => intro fuel2 fields ob h; exact absurd h (by omega)
  | succ fuel ih =>
    intro fuel2 fields ob h h2
    cases fuel2 with
    | zero => exact absurd h2 (by omega)
    | succ fuel2 =>
      simp only [tqd_loop]
      cases hex : exec fields ob with
      | ok rows => simp
      | err msg =>
        simp only []
        by_cases hob : (ob.isSome && (hasSubstr "unexpected token".data (pylower msg).data
            || hasSubstr "nulls".data (pylower msg).data)) = true
        · rw [if_pos hob, if_pos hob]
          apply ih
          · have : obCount ob = 1 := by cases ob <;> simp_all [obCount]
            simp only [obCount]
            omega
          · have : obCount ob = 1 := by cases ob <;> simp_all [obCount]
            simp only [obCount]
            omega
        · rw [if_neg hob, if_neg hob]
          cases hbf : parse_bad_field msg with
          | none => simp
          | some bad =>
            simp only []
            by_cases hin : bad ≠ "" ∧ bad ∈ fields
            · rw [if_pos hin, if_pos hin]
              by_cases hemp : (fields.erase bad).isEmpty = true
              · rw [if_pos hemp, if_pos hemp]
              · rw [if_neg hemp, if_neg hemp]
                have hlen : (fields.erase bad).length = fields.length - 1 :=
                  List.length_erase_of_mem hin.2
                have hpos : 1 ≤ fields.length := List.length_pos.mpr
                  (List.ne_nil_of_mem hin.2)
                apply ih <;> omega
            · rw [if_neg hin, if_neg hin]

theorem tqd_loop_fail_surface {Row : Type} (exec : List String → Option String → QueryRes Row)
    (ctx : SoqlCtx) :
    ∀ (fuel : Nat) (fields : List String) (ob : Option String) (q e : String),
      (tqd_loop exec ctx fields ob fuel = QueryOutcome.failOther q e
        ∨ tqd_loop exec ctx fields ob fuel = QueryOutcome.failNoFields q e) →
      ∃ fl ob2, q = build_soql ctx fl ob2 ∧ exec fl ob2 = QueryRes.err e := by
  intro fuel
  induction fuel with
  | zero =>
    intro fields ob q e h
    simp only [tqd_loop] at h
    rcases h with h | h <;> exact absurd h (by simp)
  | succ fuel ih =>
    intro fields ob q e h
    simp only [tqd_loop] at h
    cases hex : exec fields ob with
    | ok rows =>
      rw [hex] at h
      rcases h with h | h <;> exact absurd h (by simp)
    | err msg =>
      rw [hex] at h
      simp only [] at h
      by_cases hob : (ob.isSome && (hasSubstr "unexpected token".data (pylower msg).data
          || hasSubstr "nulls".data (pylower msg).data)) = true
      · rw [if_pos hob] at h
        exact ih fields none q e h
      · rw [if_neg hob] at h
        cases hbf : parse_bad_field msg with
        | none =>
          rw [hbf] at h
          simp only [] at h
          rcases h with h | h
          · rcases h with ⟨hq, he⟩
            exact ⟨fields, ob, rfl, hex⟩
          · exact absurd h (by simp)
        | some bad =>
          rw [hbf] at h
          simp only [] at h
          by_cases hin : bad ≠ "" ∧ bad ∈ fields
          · rw [if_pos hin] at h
            by_cases hemp : (fields.erase bad).isEmpty = true
            · rw [if_pos hemp] at h
              rcases h with h | h
              · exact absurd h (by simp)
              · rcases h with ⟨hq, he⟩
                exact ⟨fields, ob, rfl, hex⟩
            · rw [if_neg hemp] at h
              exact ih _ ob q e h
          · rw [if_neg hin] at h
            rcases h with h | h
            · rcases h with ⟨hq, he⟩
              exact ⟨fields, ob, rfl, hex⟩
            · exact absurd h (by simp)

theorem dedupFirst_length_le_aux :
    ∀ (n : Nat) (l : List String), l.length ≤ n → (dedupFirst l).length ≤ l.length := by
  intro n
  induction n with
  | zero =>
    intro l h
    have hl : l = [] := List.length_eq_zero.mp (Nat.le_zero.mp h)
    subst hl
    simp [dedupFirst]
  | succ n ih =>
    intro l h
    cases l with
    | nil => simp [dedupFirst]
    | cons x rest =>
      rw [dedupFirst]
      simp only [List.length_cons]
      have h1 : (rest.filter (fun y => y != x)).length ≤ rest.length :=
        List.length_filter_le _ _
      have h2 := ih (rest.filter (fun y => y != x))
        (by simp only [List.length_cons] at h; omega)
      omega

theorem dedupFirst_length_le (l : List String) : (dedupFirst l).length ≤ l.length :=
  dedupFirst_length_le_aux l.length l (Nat.le_refl _)

/-- **C7.** For every requested field list, schema and query executor, the
schema-tolerant query loop terminates: each retry removes one reported missing
field or the order-by clause, so with fuel at least fields0.length + 2 the
model never exhausts its fuel and the outcome no longer depends on the fuel
(the loop stops — with failNoFields — once no droppable field remains rather
than retrying forever); and every irrecoverable failure surfaces the last
attempted SOQL query together with the raw error message the executor
returned for it. -/
theorem c7_drop_missing_terminates (Row : Type)
    (exec : List String → Option String → QueryRes Row) (existing : List String)
    (ctx : SoqlCtx) (fields0 : List String) (orderBy0 : Option String) (fuel : Nat)
    (hfuel : fields0.length + 2 ≤ fuel) :
    try_query_drop_missing exec existing ctx fields0 orderBy0 fuel ≠ QueryOutcome.outOfFuel
    ∧ try_query_drop_missing exec existing ctx fields0 orderBy0 fuel
        = try_query_drop_missing exec existing ctx fields0 orderBy0 (fields0.length + 2)
    ∧ (∀ q e, (try_query_drop_missing exec existing ctx fields0 orderBy0 fuel
            = QueryOutcome.failOther q e
          ∨ try_query_drop_missing exec existing ctx fields0 orderBy0 fuel
            = QueryOutcome.failNoFields q e) →
        ∃ fl ob2, q = build_soql ctx fl ob2 ∧ exec fl ob2 = QueryRes.err e) := by
  have heq : ∀ fu, try_query_drop_missing exec existing ctx fields0 orderBy0 fu
      = tqd_loop exec ctx (tqdFields existing fields0) (tqdOb existing orderBy0) fu :=
    fun fu => rfl
  have hlen1 : (dedupFirst (fields0.filter (fun f => f != ""))).length ≤ fields0.length :=
    Nat.le_trans (dedupFirst_length_le _) (List.length_filter_le _ _)
  have hlen2 : (tqdFields existing fields0).length ≤ fields0.length := by
    rw [tqdFields]
    by_cases he : existing.isEmpty
    · simpa [he] using hlen1
    · simp only [he, if_false]
      exact Nat.le_trans (List.length_filter_le _ _) hlen1
  have hobc : obCount (tqdOb existing orderBy0) ≤ 1 := by
    cases tqdOb existing orderBy0 <;> simp [obCount]
  have hm1 : (tqdFields existing fields0).length + obCount (tqdOb existing orderBy0) < fuel := by
    omega
  have hm2 : (tqdFields existing fields0).length + obCount (tqdOb existing orderBy0)
      < fields0.length + 2 := by
    omega
  rw [heq, heq]
  exact ⟨tqd_loop_ne_outOfFuel exec ctx fuel _ _ hm1,
    tqd_loop_fuel_eq exec ctx fuel (fields0.length + 2) _ _ hm1 hm2,
    fun q e h => tqd_loop_fail_surface exec ctx fuel _ _ q e h⟩

/-- Witness for C7 at a concrete input: one field, no order-by, an executor
that always fails with an unrecognised error, fuel 3. -/
theorem c7_drop_missing_terminates_witness :
    (["A"] : List String).length + 2 ≤ 3
    ∧ (try_query_drop_missing execAlwaysBoom [] demoCtx ["A"] none 3
        ≠ QueryOutcome.outOfFuel
      ∧ try_query_drop_missing execAlwaysBoom [] demoCtx ["A"] none 3
          = try_query_drop_missing execAlwaysBoom [] demoCtx ["A"] none
              ((["A"] : List String).length + 2)
      ∧ (∀ q e, (try_query_drop_missing execAlwaysBoom [] demoCtx ["A"] none 3
              = QueryOutcome.failOther q e
            ∨ try_query_drop_missing execAlwaysBoom [] demoCtx ["A"] none 3
              = QueryOutcome.failNoFields q e) →
          ∃ fl ob2, q = build_soql demoCtx fl ob2 ∧ execAlwaysBoom fl ob2 = QueryRes.err e)) :=
  ⟨by decide,
    c7_drop_missing_terminates Unit execAlwaysBoom [] demoCtx ["A"] none 3 (by decide)⟩
